import Mathlib

/-!
Verification of the enchanted-sleeve (esl) key/value store.

The Go sources are shallowly embedded: byte slices become `List Nat`
(each element a byte value), Go's distinction between a nil slice and an
allocated slice is captured by `Option`, machine integers become `Nat`
with explicit `% 2^w` reductions where Go truncates, and fallible
operations return `Except`.  File systems are association lists from
file names to byte contents.
-/

set_option maxHeartbeats 1000000
set_option maxRecDepth 4000

namespace Esl

/-- Bytes are modelled as natural numbers below 256; on-disk data is a list of bytes. -/
abbrev Byte := Nat

/-- Contents of a Go byte slice, where a nil slice acts as the empty list. -/
def sliceBytes (s : Option (List Byte)) : List Byte := s.getD []

/-- Go `len` of a byte slice (`len(nil) = 0`). -/
def sliceLen (s : Option (List Byte)) : Nat := (sliceBytes s).length

/-- Big-endian 2-byte encoding (binary.BigEndian.PutUint16). -/
def be16 (n : Nat) : List Byte := [n / 256 % 256, n % 256]

/-- Big-endian 4-byte encoding (binary.BigEndian.PutUint32). -/
def be32 (n : Nat) : List Byte :=
  [n / 16777216 % 256, n / 65536 % 256, n / 256 % 256, n % 256]

/-- binary.BigEndian.Uint16 applied to `buf[off:]`. -/
def readBE16 (buf : List Byte) (off : Nat) : Nat :=
  ((buf.drop off).take 2).foldl (fun a b => a * 256 + b) 0

/-- binary.BigEndian.Uint32 applied to `buf[off:]`. -/
def readBE32 (buf : List Byte) (off : Nat) : Nat :=
  ((buf.drop off).take 4).foldl (fun a b => a * 256 + b) 0

/-- Go `copy(buf[off:], src)` semantics: overwrite `buf` starting at `off`
with as much of `src` as fits; the buffer never grows. -/
def storeAt (buf : List Byte) (off : Nat) (src : List Byte) : List Byte :=
  buf.take off ++ src.take (buf.length - off) ++ buf.drop (off + src.length)

/-- One bit step of the reflected CRC-32 computation (IEEE polynomial 0xEDB88320). -/
def crc32Round (c : Nat) : Nat :=
  if c % 2 = 1 then (c / 2) ^^^ 0xEDB88320 else c / 2

/-- Fold one byte into the running CRC-32 state (eight bit steps). -/
def crc32Update (c b : Nat) : Nat :=
  crc32Round (crc32Round (crc32Round (crc32Round
    (crc32Round (crc32Round (crc32Round (crc32Round (c ^^^ b % 256))))))))

/-- CRC-32 with the IEEE polynomial, as computed by Go's hash/crc32
`ChecksumIEEE`. -/
def crc32 (data : List Byte) : Nat :=
  (data.foldl crc32Update 4294967295) ^^^ 4294967295

/-- The error kinds of error.go. -/
inductive EslError where
  | KeyOrValueTooLong
  | KeyNotFound
  | InvalidEntryHeader
  | EntryCorrupted
  | InvalidKeydirData
  | InvalidKeydirFileData
  | IoFailure
deriving Repr, DecidableEq

/-- kvEntry from kv_entry.go: a single key value pair in an ESL file.
`key` and `value` are Go byte slices, hence `Option` (nil versus allocated). -/
structure kvEntry where
  crc : Nat
  tsTimestamp : Nat
  keySize : Nat
  valueSize : Nat
  key : Option (List Byte)
  value : Option (List Byte)
deriving Repr, DecidableEq

/-- The buffer built by kvEntry.bytes (kv_entry.go lines 66-82) before the
crc is stored: timestamp at offset 4, key size at 8, value size at 10, key
bytes at 12, value bytes at 12 + keySize.  Offset 0..3 stays zero here. -/
def kvEntry.bytesBody (ent : kvEntry) : List Byte :=
  let data := List.replicate (sliceLen ent.key + sliceLen ent.value + 12) 0
  let data := storeAt data 4 (be32 ent.tsTimestamp)
  let data := storeAt data 8 (be16 ent.keySize)
  let data := storeAt data 10 (be16 ent.valueSize)
  let data := storeAt data 12 (sliceBytes ent.key)
  storeAt data (12 + ent.keySize) (sliceBytes ent.value)

/-- kvEntry.bytes from kv_entry.go: serialize the entry, then compute the
crc over the bytes from offset 4 and store it at offset 0. -/
def kvEntry.bytes (ent : kvEntry) : List Byte :=
  storeAt ent.bytesBody 0 (be32 (crc32 (ent.bytesBody.drop 4)))

/-- The checksum helper `_checksumRaw` of kv_entry.go lines 46-48. -/
def _checksumRaw (data : List Byte) : Nat := crc32 data

/-- kvEntry.tombstone from kv_entry.go lines 84-87: the entry is a tombstone
iff its value slice is nil. -/
def kvEntry.tombstone (ent : kvEntry) : Bool := ent.value == none

/-- newEntry from kv_entry.go (the sync.Pool is immaterial to the values);
the wall clock timestamp is passed explicitly. -/
def newEntry (key value : Option (List Byte)) (ts : Nat) : kvEntry :=
  { crc := 0
    tsTimestamp := ts % 4294967296
    keySize := sliceLen key % 65536
    valueSize := sliceLen value % 65536
    key := key
    value := value }

/-- The free function `checksum` (used by readDataFile's crc check): CRC-32
over a buffer holding timestamp, key size, value size, key and value bytes. -/
def checksum (ent : kvEntry) : Nat :=
  let data := List.replicate (12 - 4 + ent.keySize + ent.valueSize) 0
  let data := storeAt data 0 (be32 ent.tsTimestamp)
  let data := storeAt data 4 (be16 ent.keySize)
  let data := storeAt data 6 (be16 ent.valueSize)
  let data := storeAt data 8 (sliceBytes ent.key)
  crc32 (storeAt data (8 + ent.keySize) (sliceBytes ent.value))

/-- decodeEntryFromHeader from kv_entry.go lines 128-146: decode the fixed
12-byte header and allocate non-nil key and value slices of the decoded
sizes (Go's `make([]byte, n)` is non-nil even for `n = 0`). -/
def decodeEntryFromHeader (header : List Byte) : Except EslError kvEntry :=
  if header.length < 12 then .error .InvalidEntryHeader
  else
    let ks := readBE16 header 8
    let vs := readBE16 header 10
    .ok { crc := readBE32 header 0
          tsTimestamp := readBE32 header 4
          keySize := ks
          valueSize := vs
          key := some (List.replicate ks 0)
          value := some (List.replicate vs 0) }

/-- estimateEntry from kv_entry.go lines 148-159. -/
def estimateEntry (bytes : Nat) : Nat :=
  if bytes < 30 then 0 else bytes / 30 + 1

namespace DbGo

/-!
The `DbGo` namespace embeds the revision of db.go that defines
`DB.Put`, `DB.Delete`, `DB.Get`, `DB.write`, `DB.archive` and
`DB.ListKeys`, together with the `keydirEntry` of entry.go and the
`keyDirIndex` of key_dir.go that this revision uses.  The model is
sequential: the `inArchived` compare-and-swap always wins and the spin
waits are no-ops, and file contents live in association lists from file
id to byte list (the active data file is the entry at `activeFileId`).
-/

/-- keydirEntry from entry.go: a single keydir entry in the ESL hash index. -/
structure keydirEntry where
  fileId : Nat
  valueSize : Nat
  tsTimestamp : Nat
  entryOffset : Nat
  valueOffset : Nat
deriving Repr, DecidableEq

/-- The checksum method of entry.go: CRC-32 over timestamp, key size,
value size, key bytes and value bytes (offsets 0, 4, 6, 8, 8 + keySize). -/
def entryChecksum (ent : kvEntry) : Nat :=
  let data := List.replicate (sliceLen ent.key + sliceLen ent.value + 8) 0
  let data := storeAt data 0 (be32 ent.tsTimestamp)
  let data := storeAt data 4 (be16 ent.keySize)
  let data := storeAt data 6 (be16 ent.valueSize)
  let data := storeAt data 8 (sliceBytes ent.key)
  crc32 (storeAt data (8 + ent.keySize) (sliceBytes ent.value))

/-- newEntry from entry.go: build the entry and fill its crc eagerly. -/
def newEntry (key value : Option (List Byte)) (ts : Nat) : kvEntry :=
  let ent : kvEntry :=
    { crc := 0
      tsTimestamp := ts % 4294967296
      keySize := sliceLen key % 65536
      valueSize := sliceLen value % 65536
      key := key
      value := value }
  { ent with crc := entryChecksum ent }

/-- The bytes method of entry.go: serialize crc (already computed), then
timestamp, key size, value size, key bytes and value bytes. -/
def entryBytes (ent : kvEntry) : List Byte :=
  let data := List.replicate (sliceLen ent.key + sliceLen ent.value + 12) 0
  let data := storeAt data 0 (be32 ent.crc)
  let data := storeAt data 4 (be32 ent.tsTimestamp)
  let data := storeAt data 8 (be16 ent.keySize)
  let data := storeAt data 10 (be16 ent.valueSize)
  let data := storeAt data 12 (sliceBytes ent.key)
  storeAt data (12 + ent.keySize) (sliceBytes ent.value)

/-- Lookup in an association list keyed by byte strings, mirroring
keyDirIndex.get of key_dir.go (Go map lookup; nil when absent). -/
def kdGet (m : List (List Byte × keydirEntry)) (k : List Byte) : Option keydirEntry :=
  (m.find? (fun p => p.fst == k)).map Prod.snd

/-- keyDirIndex.set of key_dir.go: Go map assignment (replace or insert). -/
def kdSet (m : List (List Byte × keydirEntry)) (k : List Byte) (v : keydirEntry) :
    List (List Byte × keydirEntry) :=
  m.filter (fun p => !(p.fst == k)) ++ [(k, v)]

/-- Contents of the file with the given id (Go opens files with O_CREATE,
so a missing file reads as empty). -/
def fileGet (files : List (Nat × List Byte)) (id : Nat) : List Byte :=
  ((files.find? (fun p => p.fst == id)).map Prod.snd).getD []

/-- Replace the contents of the file with the given id. -/
def fileSet (files : List (Nat × List Byte)) (id : Nat) (c : List Byte) :
    List (Nat × List Byte) :=
  files.filter (fun p => !(p.fst == id)) ++ [(id, c)]

/-- The observable state of the DB struct of db.go: active file id, the
write offsets, the data and hint file contents, and the key directory. -/
structure DB where
  activeFileId : Nat
  activeDataFileOff : Nat
  activeHintOff : Nat
  dataFiles : List (Nat × List Byte)
  hintFiles : List (Nat × List Byte)
  keyDir : List (List Byte × keydirEntry)
deriving Repr, DecidableEq

/-- The constants of db.go lines 238-243. -/
def maxKeySize : Nat := 512

/-- The maximum value size constant of db.go lines 238-243 (1 << 16). -/
def maxValueSize : Nat := 65536

/-- The data file rotation threshold of db.go lines 238-243 (100 MiB). -/
def maxDataFileSize : Nat := 104857600

/-- DB.archive from db.go lines 211-236: flush and close the active data
and hint files, increment the file id (uint16), reopen both files at the
new id and record their sizes as the new offsets.  The compare-and-swap
on inArchived always succeeds in this sequential model. -/
def archive (st : DB) : DB × Except EslError Unit :=
  let id' := (st.activeFileId + 1) % 65536
  ({ st with
      activeFileId := id'
      activeDataFileOff := (fileGet st.dataFiles id').length % 4294967296
      activeHintOff := (fileGet st.hintFiles id').length % 4294967296 },
   .ok ())

/-- DB.write from db.go lines 288-309: append the encoded entry to the
active data file, update the key directory, advance the offset by the
bytes written, and archive when the offset reaches maxDataFileSize. -/
def write (st : DB) (key : List Byte) (e : kvEntry) (keydir : keydirEntry) :
    DB × Except EslError Unit :=
  let data := entryBytes e
  let n := data.length
  let st :=
    { st with
        dataFiles := fileSet st.dataFiles st.activeFileId
          (fileGet st.dataFiles st.activeFileId ++ data)
        keyDir := kdSet st.keyDir key keydir
        activeDataFileOff := (st.activeDataFileOff + n) % 4294967296 }
  if st.activeDataFileOff ≥ maxDataFileSize then archive st else (st, .ok ())

/-- DB.buildKeyDir from db.go lines 256-272: descriptor for an entry about
to be appended at the current offset of the active file (entryOffset is
left at its zero value by the Go struct literal). -/
def buildKeyDir (st : DB) (e : kvEntry) : keydirEntry :=
  { fileId := st.activeFileId
    valueSize := e.valueSize
    tsTimestamp := e.tsTimestamp
    entryOffset := 0
    valueOffset := (st.activeDataFileOff + (12 + e.keySize)) % 4294967296 }

/-- DB.Put from db.go lines 245-254. -/
def Put (st : DB) (key value : List Byte) (ts : Nat) : DB × Except EslError Unit :=
  if key.length > maxKeySize ∨ value.length > maxValueSize then
    (st, .error .KeyOrValueTooLong)
  else
    let entry := newEntry (some key) (some value) ts
    let keydir := buildKeyDir st entry
    write st key entry keydir

/-- DB.Delete from db.go lines 274-285, translated exactly as written:
when the key directory holds an entry for the key the call returns
immediately; otherwise a tombstone entry (nil value) is appended. -/
def Delete (st : DB) (key : List Byte) (ts : Nat) : DB × Except EslError Unit :=
  match kdGet st.keyDir key with
  | some _ => (st, .ok ())
  | none =>
    let entry := newEntry (some key) none ts
    let keydir := buildKeyDir st entry
    write st key entry keydir

/-- Go ReadAt into a buffer of the given size: fails unless the full
range is available. -/
def readAtExact (file : List Byte) (off size : Nat) : Except EslError (List Byte) :=
  if off + size ≤ file.length then .ok ((file.drop off).take size)
  else .error .IoFailure

/-- DB.Get from db.go lines 311-331: look the key up in the directory
(KeyNotFound only when absent), then read valueSize bytes at valueOffset
from the file named by the descriptor.  The source's readInactiveFile
builds the file name with "%10d" on the id alone; both branches are
modelled as reading the id's contents. -/
def Get (st : DB) (key : List Byte) : Except EslError (List Byte) :=
  match kdGet st.keyDir key with
  | none => .error .KeyNotFound
  | some clue =>
    if clue.fileId == st.activeFileId then
      readAtExact (fileGet st.dataFiles clue.fileId) clue.valueOffset clue.valueSize
    else
      readAtExact (fileGet st.dataFiles clue.fileId) clue.valueOffset clue.valueSize

/-- DB.ListKeys from db.go lines 350-357: every key of the keyDir hashmap,
with no filtering. -/
def ListKeys (st : DB) : List (List Byte) := st.keyDir.map Prod.fst

/-- A freshly opened empty store: active file id 1, empty files, empty
directory. -/
def emptyDB : DB :=
  { activeFileId := 1
    activeDataFileOff := 0
    activeHintOff := 0
    dataFiles := []
    hintFiles := []
    keyDir := [] }

end DbGo

/-!
Embedding of the path utilities (takeDBPathSnap, fileIdFromFilename,
lastFileIdFromFilenames, backupFile and the file name builders).  File
names are lists of character codes; the file system is an association
list from file names to byte contents.
-/

/-- File names are lists of ASCII character codes. -/
abbrev FileName := List Nat

/-- The data file extension ".esld". -/
def dotEsld : FileName := [46, 101, 115, 108, 100]

/-- The hint file extension ".hint". -/
def dotHint : FileName := [46, 104, 105, 110, 116]

/-- The backup suffix ".bak" appended by backupFile. -/
def dotBak : FileName := [46, 98, 97, 107]

/-- filepath.Split: the base name after the last separator. -/
def baseOf (name : FileName) : FileName :=
  ((name.reverse.takeWhile (fun c => !(c == 47)))).reverse

/-- filepath.Ext: the suffix starting at the final dot (empty when the
name has no dot). -/
def extOf (name : FileName) : FileName :=
  let revTail := name.reverse.takeWhile (fun c => !(c == 46))
  if revTail.length == name.length then []
  else (revTail ++ [46]).reverse

/-- ASCII lower-casing of one character code. -/
def lowerByte (c : Nat) : Nat := if 65 ≤ c ∧ c ≤ 90 then c + 32 else c

/-- strings.EqualFold restricted to ASCII, which covers the extensions used. -/
def eqFold (a b : FileName) : Bool := a.map lowerByte == b.map lowerByte

/-- Decimal digit test on character codes. -/
def isDigitByte (c : Nat) : Bool := decide (48 ≤ c) && decide (c ≤ 57)

/-- Decimal digits, structurally recursive on a fuel bound so that the
definition reduces; the fuel `n + 1` always suffices. -/
def decimalDigitsGo : Nat → Nat → List Nat
  | 0, _ => []
  | fuel + 1, n =>
    if n < 10 then [48 + n]
    else decimalDigitsGo fuel (n / 10) ++ [48 + n % 10]

/-- Decimal digits (character codes, most significant first) of a number. -/
def decimalDigits (n : Nat) : List Nat := decimalDigitsGo (n + 1) n

/-- Sprintf "%010d": ten zero-padded decimal digits. -/
def pad10 (n : Nat) : FileName :=
  List.replicate (10 - (decimalDigits n).length) 48 ++ decimalDigits n

/-- filepath.Join for the two-component case used by the store. -/
def joinPath (path name : FileName) : FileName :=
  if path.isEmpty then name else path ++ [47] ++ name

/-- dataFilename from the path utilities: path/<10 digits>.esld. -/
def dataFilename (path : FileName) (fileId : Nat) : FileName :=
  joinPath path (pad10 fileId ++ dotEsld)

/-- hintFilename from the path utilities: path/<10 digits>.hint. -/
def hintFilename (path : FileName) (fileId : Nat) : FileName :=
  joinPath path (pad10 fileId ++ dotHint)

/-- fileIdFromFilename: check the extension case-insensitively, scan at
most ten leading digits of the base name (Sscanf "%010d") and fail when
there is no digit or the value does not fit in uint16. -/
def fileIdFromFilename (filename : FileName) : Except EslError Nat :=
  let name := baseOf filename
  let ext := extOf name
  if !(eqFold ext dotEsld || eqFold ext dotHint) then .error .IoFailure
  else
    let ds := (name.takeWhile isDigitByte).take 10
    if ds.isEmpty then .error .IoFailure
    else
      let v := ds.foldl (fun a c => a * 10 + (c - 48)) 0
      if 65536 ≤ v then .error .IoFailure else .ok v

/-- Insertion into a list according to a boolean comparison. -/
def insertBy {α : Type} (le : α → α → Bool) (x : α) : List α → List α
  | [] => [x]
  | y :: ys => if le x y then x :: y :: ys else y :: insertBy le x ys

/-- Insertion sort according to a boolean comparison. -/
def sortBy {α : Type} (le : α → α → Bool) (l : List α) : List α :=
  l.foldr (insertBy le) []

/-- Descending comparison on numbers (sort.Reverse of sort.IntSlice). -/
def geNat (a b : Nat) : Bool := decide (b ≤ a)

/-- Lexicographic comparison of file names (sort order of Glob results). -/
def lexLe : FileName → FileName → Bool
  | [], _ => true
  | _ :: _, [] => false
  | a :: as, b :: bs => if a < b then true else if b < a then false else lexLe as bs

/-- mapM over Except, written as explicit recursion. -/
def mapExcept {α β : Type} (f : α → Except EslError β) : List α → Except EslError (List β)
  | [] => .ok []
  | x :: xs =>
    match f x with
    | .error e => .error e
    | .ok y =>
      match mapExcept f xs with
      | .error e => .error e
      | .ok ys => .ok (y :: ys)

/-- lastFileIdFromFilenames: empty gives 0, a single name is parsed
directly, otherwise every name is parsed, the ids are sorted descending
and the first is returned as a uint16. -/
def lastFileIdFromFilenames (filenames : List FileName) : Except EslError Nat :=
  match filenames with
  | [] => .ok 0
  | [f] => fileIdFromFilename f
  | _ =>
    match mapExcept fileIdFromFilename filenames with
    | .error e => .error e
    | .ok fileIds => .ok ((sortBy geNat fileIds).headD 0 % 65536)

/-- The file system: an association list from file names to contents. -/
abbrev Fs := List (FileName × List Byte)

/-- Lookup of a file's contents. -/
def lookupFs (fs : Fs) (n : FileName) : Option (List Byte) :=
  (fs.find? (fun p => p.fst == n)).map Prod.snd

/-- Remove a file (fs.Remove; removing a missing file is a no-op here,
merge ignores the returned error). -/
def removeFs (fs : Fs) (n : FileName) : Fs :=
  fs.filter (fun p => !(p.fst == n))

/-- Create or replace a file with the given contents. -/
def writeFs (fs : Fs) (n : FileName) (c : List Byte) : Fs :=
  removeFs fs n ++ [(n, c)]

/-- fs.Rename: move the contents of `old` to `new`, replacing any
existing `new`; fails when `old` does not exist. -/
def renameFs (fs : Fs) (old new : FileName) : Except EslError Fs :=
  match lookupFs fs old with
  | none => .error .IoFailure
  | some c => .ok (writeFs (removeFs fs old) new c)

/-- afero.Glob for the patterns path/*.esld and path/*.hint: every
existing name directly under `path` whose base ends with the extension,
in sorted order. -/
def globFs (fs : Fs) (path ext : FileName) : List FileName :=
  let pre := if path.isEmpty then [] else path ++ [47]
  sortBy lexLe ((fs.map Prod.fst).filter
    (fun n => pre.isPrefixOf n
      && !((n.drop pre.length).contains 47)
      && ext.isSuffixOf (n.drop pre.length)))

/-- Modelled from the spec: the initial data file id used when the store
directory holds no files at all; the constant `initDataFileId` is
declared in a file that is not part of the sources here (the DB core),
and its concrete value does not enter any claim below.  The repository's
Test_DB_Merge arithmetic pins it to 1. -/
def initDataFileId : Nat := 1

/-- dbPathSnap from the path utilities. -/
structure dbPathSnap where
  path : FileName
  dataFiles : List FileName
  hintFiles : List FileName
  lastDataFileId : Nat
deriving Repr, DecidableEq

/-- takeDBPathSnap: glob data and hint files; when any data file exists
the last id is taken from the data files (errors propagate); then, when
any hint file exists, that value is overwritten by the largest hint id
plus one (this branch ignores the parse error, as the source does). -/
def takeDBPathSnap (fs : Fs) (path : FileName) : Except EslError dbPathSnap :=
  let dataFiles := globFs fs path dotEsld
  let hintFiles := globFs fs path dotHint
  if dataFiles.isEmpty && hintFiles.isEmpty then
    .ok { path := path, dataFiles := dataFiles, hintFiles := hintFiles,
          lastDataFileId := initDataFileId }
  else
    match (if dataFiles.isEmpty then .ok initDataFileId
           else lastFileIdFromFilenames dataFiles : Except EslError Nat) with
    | .error e => .error e
    | .ok last1 =>
      let last2 :=
        if hintFiles.isEmpty then last1
        else ((match lastFileIdFromFilenames hintFiles with
               | .ok v => v
               | .error _ => 0) + 1) % 65536
      .ok { path := path, dataFiles := dataFiles, hintFiles := hintFiles,
            lastDataFileId := last2 }

/-- backupFile: rename the file to name.bak; the restore handle renames
it back and the clean handle removes the backup (both are reflected
directly in merge below). -/
def backupFile (fs : Fs) (filename : FileName) : Except EslError Fs :=
  renameFs fs filename (filename ++ dotBak)

/-!
Embedding of the compaction engine of db_compact.go: readDataFile, the
tombstone/alive scan of mergeFiles, writeMergeFileAndHint with its
cleanup of partial outputs, and the backup/restore orchestration.
Failures of the underlying writes are injected through a `failAt`
counter (the index of the first Write call that fails), which stands for
an arbitrary I/O error during the writing phase.
-/

/-- keydirMemEntry from the keydir codec: the in-memory descriptor. -/
structure keydirMemEntry where
  fileId : Nat
  valueSize : Nat
  entryOffset : Nat
  valueOffset : Nat
deriving Repr, DecidableEq

/-- The bytes method of keydirMemEntry: 12 bytes, big-endian fields at
offsets 0, 2, 4, 8. -/
def keydirMemEntry.bytes (e : keydirMemEntry) : List Byte :=
  be16 (e.fileId % 65536) ++ be16 (e.valueSize % 65536) ++
    be32 (e.entryOffset % 4294967296) ++ be32 (e.valueOffset % 4294967296)

/-- keydirFileEntry from the keydir codec: the on-disk hint record. -/
structure keydirFileEntry where
  mem : keydirMemEntry
  keySize : Nat
  key : Option (List Byte)
deriving Repr, DecidableEq

/-- The bytes method of keydirFileEntry: the 12-byte fixed part, the
2-byte key size, then the key bytes. -/
def keydirFileEntry.bytes (e : keydirFileEntry) : List Byte :=
  e.mem.bytes ++ be16 (e.keySize % 65536) ++ sliceBytes e.key

/-- Map assignment for the keydir maps built while reading a data file. -/
def memSet (m : List (List Byte × keydirMemEntry)) (k : List Byte)
    (v : keydirMemEntry) : List (List Byte × keydirMemEntry) :=
  m.filter (fun p => !(p.fst == k)) ++ [(k, v)]

/-- The key of an entry as used by the merge maps:
unsafe.String(&kv.key[0], kv.keySize). -/
def entryKey (kv : kvEntry) : List Byte := (sliceBytes kv.key).take kv.keySize

/-- The parsing loop of readDataFile (db_compact.go lines 354-399), made
structurally recursive on a fuel bound (each iteration consumes at least
twelve bytes, so `content.length + 1` fuel always suffices): read the
12-byte header, decode it, read key and value into the decoded entry,
verify the checksum, record the entry and its descriptor, and advance by
12 + keySize + valueSize. -/
def readDataFileGo (content : List Byte) (fileId : Nat) :
    Nat → Nat → List kvEntry → List (List Byte × keydirMemEntry) →
    Except EslError (List kvEntry × List (List Byte × keydirMemEntry))
  | 0, _, _, _ => .error .IoFailure
  | fuel + 1, cur, entries, keydires =>
    if cur < content.length then
      if content.length < cur + 12 then .error .IoFailure
      else
        match decodeEntryFromHeader ((content.drop cur).take 12) with
        | .error e => .error e
        | .ok entry =>
          if content.length < cur + 12 + entry.keySize then .error .IoFailure
          else
            let entry := { entry with
              key := some ((content.drop (cur + 12)).take entry.keySize) }
            if content.length < cur + 12 + entry.keySize + entry.valueSize then
              .error .IoFailure
            else
              let entry := { entry with
                value := some ((content.drop (cur + 12 + entry.keySize)).take
                  entry.valueSize) }
              if checksum entry ≠ entry.crc then .error .EntryCorrupted
              else
                let keydir : keydirMemEntry :=
                  { fileId := fileId
                    valueSize := entry.valueSize
                    entryOffset := cur
                    valueOffset := cur + 12 + entry.keySize }
                readDataFileGo content fileId fuel
                  (cur + 12 + entry.keySize + entry.valueSize)
                  (entries ++ [entry]) (memSet keydires (entryKey entry) keydir)
    else .ok (entries, keydires)

/-- readDataFile from db_compact.go lines 333-402: open the file and
parse every entry. -/
def readDataFile (fs : Fs) (filename : FileName) (fileId : Nat) :
    Except EslError (List kvEntry × List (List Byte × keydirMemEntry)) :=
  match lookupFs fs filename with
  | none => .error .IoFailure
  | some content => readDataFileGo content fileId (content.length + 1) 0 [] []

/-- The scan state of mergeFiles: the tombstone key set and the alive
key-to-entry map. -/
abbrev MergeState := List (List Byte) × List (List Byte × kvEntry)

/-- One entry of the scan of mergeFiles (db_compact.go lines 126-140):
skip keys already in the tombstone set or the alive map; otherwise record
tombstone entries in the tombstone set, and in all cases insert the entry
into the alive map. -/
def mergeScanStep (st : MergeState) (kv : kvEntry) : MergeState :=
  let key := entryKey kv
  if st.fst.contains key then st
  else if (st.snd.find? (fun p => p.fst == key)).isSome then st
  else
    ((if kv.tombstone then st.fst ++ [key] else st.fst), st.snd ++ [(key, kv)])

/-- The scan of one data file's entries, in file order. -/
def mergeScanFile (st : MergeState) (kvs : List kvEntry) : MergeState :=
  kvs.foldl mergeScanStep st

/-- The per-file loop of mergeFiles (db_compact.go lines 111-141): read
each data file, rename it to its .bak backup, and fold its entries into
the scan state.  Read or rename errors abort the loop without restoring
earlier backups, exactly as in the source.  Returns the error if any, the
file system, the scan state, and the list of backed-up file names. -/
def mergeLoop (path : FileName) :
    List Nat → Fs → MergeState → List FileName →
    Option EslError × Fs × MergeState × List FileName
  | [], fs, st, backups => (none, fs, st, backups)
  | fid :: rest, fs, st, backups =>
    let filename := dataFilename path fid
    match readDataFile fs filename fid with
    | .error e => (some e, fs, st, backups)
    | .ok (kvs, _) =>
      match backupFile fs filename with
      | .error e => (some e, fs, st, backups)
      | .ok fs' =>
        mergeLoop path rest fs' (mergeScanFile st kvs) (backups ++ [filename])

/-- Write at a position within a file, extending it as needed (the
behavior of writes on a descriptor opened with O_CREATE|O_RDWR). -/
def overwriteAt (old : List Byte) (pos : Nat) (src : List Byte) : List Byte :=
  old.take pos ++ src ++ old.drop (pos + src.length)

/-- Apply a positioned write to a named file. -/
def writeFileAt (fs : Fs) (n : FileName) (pos : Nat) (src : List Byte) : Fs :=
  writeFs fs n (overwriteAt ((lookupFs fs n).getD []) pos src)

/-- The open helper of writeMergeFileAndHint: create the data and hint
files of the given id when missing (an existing file is kept and will be
overwritten from position zero). -/
def wmOpen (fs : Fs) (path : FileName) (fileId : Nat) : Fs :=
  let dataName := dataFilename path fileId
  let fs := if (lookupFs fs dataName).isSome then fs else writeFs fs dataName []
  let hintName := hintFilename path fileId
  if (lookupFs fs hintName).isSome then fs else writeFs fs hintName []

/-- The write loop of writeMergeFileAndHint (db_compact.go lines
230-266): write each alive entry to the current data file and its hint
record to the sibling hint file; when valueOff trips the oversize check,
close the pair, decrement the file id (uint16) and open a fresh pair.
`count` numbers the Write calls and `failAt` injects an error on the
given call.  Returns the error if any, the file system, and the ids of
every file pair opened. -/
def wmLoop (path : FileName) (oversize : Nat → Bool) (failAt : Option Nat) :
    List (List Byte × kvEntry) →
    Fs → Nat → Nat → Nat → Nat → Nat → List Nat →
    Option EslError × Fs × List Nat
  | [], fs, _, _, _, _, _, fileIds => (none, fs, fileIds)
  | (_, entry) :: rest, fs, fileId, dataPos, hintPos, entryOff, count, fileIds =>
    if failAt == some count then (some .IoFailure, fs, fileIds)
    else
      let wb := entry.bytes
      let fs := writeFileAt fs (dataFilename path fileId) dataPos wb
      let n := wb.length
      let valueOff := entryOff + 12 + entry.keySize
      let keydir : keydirFileEntry :=
        { mem := { fileId := fileId
                   valueSize := entry.valueSize
                   valueOffset := valueOff
                   entryOffset := entryOff }
          keySize := entry.keySize
          key := entry.key }
      if failAt == some (count + 1) then (some .IoFailure, fs, fileIds)
      else
        let hw := keydir.bytes
        let fs := writeFileAt fs (hintFilename path fileId) hintPos hw
        if oversize valueOff then
          let fileId' := (fileId + 65535) % 65536
          wmLoop path oversize failAt rest (wmOpen fs path fileId') fileId'
            0 0 0 (count + 2) (fileIds ++ [fileId'])
        else
          wmLoop path oversize failAt rest fs fileId (dataPos + n)
            (hintPos + hw.length) (entryOff + n) (count + 2) fileIds

/-- Remove the data and hint files of every opened id (the deferred
cleanup of writeMergeFileAndHint on error). -/
def wmCleanup (fs : Fs) (path : FileName) (fileIds : List Nat) : Fs :=
  fileIds.foldl
    (fun f id => removeFs (removeFs f (dataFilename path id)) (hintFilename path id)) fs

/-- writeMergeFileAndHint with the opened file ids exposed: open the
first pair at maxFileId, run the write loop, and on error remove every
partial output. -/
def wmAux (fs : Fs) (path : FileName) (maxFileId : Nat)
    (aliveEntries : List (List Byte × kvEntry)) (oversize : Nat → Bool)
    (failAt : Option Nat) : Option EslError × Fs × List Nat :=
  match wmLoop path oversize failAt aliveEntries (wmOpen fs path maxFileId)
      maxFileId 0 0 0 0 [maxFileId] with
  | (none, fs', fileIds) => (none, fs', fileIds)
  | (some e, fs', fileIds) => (some e, wmCleanup fs' path fileIds, fileIds)

/-- writeMergeFileAndHint from db_compact.go lines 172-271. -/
def writeMergeFileAndHint (fs : Fs) (path : FileName) (maxFileId : Nat)
    (aliveEntries : List (List Byte × kvEntry)) (oversize : Nat → Bool)
    (failAt : Option Nat) : Option EslError × Fs :=
  let r := wmAux fs path maxFileId aliveEntries oversize failAt
  (r.fst, r.snd.fst)

/-- The clean handles of mergeFiles on success: remove every backup. -/
def cleanAll (fs : Fs) (backups : List FileName) : Fs :=
  backups.foldl (fun f b => removeFs f (b ++ dotBak)) fs

/-- The restore handles of mergeFiles on failure: rename every backup
back to its original name (errors ignored, as in the source). -/
def restoreAll (fs : Fs) (backups : List FileName) : Fs :=
  backups.foldl
    (fun f b => match renameFs f (b ++ dotBak) b with
      | .ok f' => f'
      | .error _ => f) fs

/-- The tail of mergeFiles after the ordered id list has been computed
and the active file trimmed: scan and back up each data file, write the
merged outputs at ids starting from activeFileId - 1, then clean the
backups on success or restore them (after the writer removed its partial
outputs) on failure. -/
def mergeFilesFrom (fs : Fs) (path : FileName) (activeFileId : Nat)
    (orderedFileIds : List Nat) (oversize : Nat → Bool) (failAt : Option Nat) :
    Option EslError × Fs :=
  match mergeLoop path orderedFileIds fs ([], []) [] with
  | (some e, fs1, _, _) => (some e, fs1)
  | (none, fs1, st, backups) =>
    match wmAux fs1 path ((activeFileId + 65535) % 65536) st.snd oversize failAt with
    | (none, fs2, _) => (none, cleanAll fs2 backups)
    | (some e, fs2, _) => (some e, restoreAll fs2 backups)

/-- mergeFiles from db_compact.go lines 81-158: glob the data files,
parse and sort their ids descending, drop the first id when it is the
active file, then scan, back up, write and clean or restore.  The source
indexes orderedFileIds[0] unconditionally, which panics on an empty
directory; that case surfaces as an error here. -/
def mergeFiles (fs : Fs) (path : FileName) (activeFileId : Nat)
    (oversize : Nat → Bool) (failAt : Option Nat) : Option EslError × Fs :=
  let matched := globFs fs path dotEsld
  match mapExcept fileIdFromFilename matched with
  | .error e => (some e, fs)
  | .ok ids =>
    match sortBy geNat ids with
    | [] => (some .IoFailure, fs)
    | first :: rest =>
      let orderedFileIds := if first == activeFileId then rest else first :: rest
      mergeFilesFrom fs path activeFileId orderedFileIds oversize failAt

/-- The composition of the per-file scans of mergeFiles, starting from
the empty tombstone set and alive map, over (file id, entries) pairs in
scan order (newest first once the ids are sorted descending). -/
def mergeScanFiles (files : List (Nat × List kvEntry)) : MergeState :=
  files.foldl (fun st p => mergeScanFile st p.snd) ([], [])

/-- The single live entry of the compaction failure scenario: key k,
value v, timestamp 0. -/
def entC3 : kvEntry := newEntry (some [107]) (some [118]) 0

/-- A store directory before compaction: the active data file 2 (empty,
never read by the merge), the immutable data file 1 holding one entry,
and a pre-existing hint file for id 1 produced by an earlier compaction. -/
def fsC3 : Fs :=
  [(dataFilename [] 2, []), (dataFilename [] 1, kvEntry.bytes entC3),
   (hintFilename [] 1, [1, 2, 3])]

/-- A file size check the scenario never trips. -/
def ovsC3 : Nat → Bool := fun off => decide (100 ≤ off)

/-! ### Helper lemmas -/

theorem storeAt_length (buf : List Byte) (off : Nat) (src : List Byte) :
    (storeAt buf off src).length = buf.length := by
  simp [storeAt]
  omega

theorem storeAt_zero_of_le (buf src : List Byte) (h : src.length ≤ buf.length) :
    storeAt buf 0 src = src ++ buf.drop src.length := by
  simp [storeAt, List.take_of_length_le h]

theorem be32_length (n : Nat) : (be32 n).length = 4 := rfl

theorem readBE32_be32 (c : Nat) (h : c < 4294967296) (rest : List Byte) :
    readBE32 (be32 c ++ rest) 0 = c := by
  show ((((0 * 256 + c / 16777216 % 256) * 256 + c / 65536 % 256) * 256
      + c / 256 % 256) * 256 + c % 256) = c
  omega

theorem crc32Round_lt (c : Nat) (h : c < 4294967296) : crc32Round c < 4294967296 := by
  unfold crc32Round
  split
  · have h32 : (4294967296 : Nat) = 2 ^ 32 := rfl
    rw [h32]
    exact Nat.xor_lt_two_pow (by omega) (by norm_num)
  · omega

theorem crc32Update_lt (c b : Nat) (h : c < 4294967296) :
    crc32Update c b < 4294967296 := by
  unfold crc32Update
  have h0 : c ^^^ b % 256 < 4294967296 := by
    have h32 : (4294967296 : Nat) = 2 ^ 32 := rfl
    rw [h32]
    exact Nat.xor_lt_two_pow (by omega) (by have := Nat.mod_lt b (y := 256) (by norm_num); omega)
  exact crc32Round_lt _ (crc32Round_lt _ (crc32Round_lt _ (crc32Round_lt _
    (crc32Round_lt _ (crc32Round_lt _ (crc32Round_lt _ (crc32Round_lt _ h0)))))))

theorem crc32_foldl_lt (l : List Byte) (c : Nat) (h : c < 4294967296) :
    l.foldl crc32Update c < 4294967296 := by
  induction l generalizing c with
  | nil => simpa using h
  | cons b t ih => exact ih _ (crc32Update_lt _ _ h)

theorem crc32_lt (data : List Byte) : crc32 data < 4294967296 := by
  unfold crc32
  have h32 : (4294967296 : Nat) = 2 ^ 32 := rfl
  rw [h32]
  exact Nat.xor_lt_two_pow (h32 ▸ crc32_foldl_lt data 4294967295 (by norm_num)) (by norm_num)

theorem bytesBody_length (ent : kvEntry) :
    ent.bytesBody.length = sliceLen ent.key + sliceLen ent.value + 12 := by
  simp [kvEntry.bytesBody, storeAt_length]

theorem bytes_split (ent : kvEntry) :
    ent.bytes = be32 (crc32 (ent.bytesBody.drop 4)) ++ ent.bytesBody.drop 4 := by
  unfold kvEntry.bytes
  rw [storeAt_zero_of_le]
  · rw [be32_length]
  · rw [be32_length, bytesBody_length]
    omega

/-! ### Claim theorems -/

/-- C5: for every entry serialized by the store via Put or Delete (an entry
built by newEntry and serialized by kvEntry.bytes), the 4-byte big-endian
crc field at offset 0 of the encoded record equals the CRC-32 (IEEE) of all
encoded bytes from offset 4 through the end of the value bytes. -/
theorem entry_bytes_crc_field (key value : Option (List Byte)) (ts : Nat) :
    readBE32 ((newEntry key value ts).bytes) 0
      = crc32 (((newEntry key value ts).bytes).drop 4) := by
  have hsplit := bytes_split (newEntry key value ts)
  rw [hsplit]
  rw [readBE32_be32 _ (crc32_lt _)]
  have hdrop : (be32 (crc32 ((newEntry key value ts).bytesBody.drop 4))
      ++ (newEntry key value ts).bytesBody.drop 4).drop 4
      = (newEntry key value ts).bytesBody.drop 4 := by
    rw [← be32_length (crc32 ((newEntry key value ts).bytesBody.drop 4))]
    exact List.drop_left _ _
  rw [hdrop]

/-- C10: decodeEntryFromHeader, on any header of at least 12 bytes, returns
an entry whose key and value are freshly allocated non-nil slices of the
decoded sizes, so tombstone() is false for every decoded entry, including
entries whose value length field is zero. -/
theorem decode_header_allocates_nonnil_slices (header : List Byte)
    (h : 12 ≤ header.length) :
    ∃ ent, decodeEntryFromHeader header = Except.ok ent ∧
      ent.key = some (List.replicate (readBE16 header 8) 0) ∧
      ent.value = some (List.replicate (readBE16 header 10) 0) ∧
      ent.tombstone = false := by
  refine ⟨{ crc := readBE32 header 0
            tsTimestamp := readBE32 header 4
            keySize := readBE16 header 8
            valueSize := readBE16 header 10
            key := some (List.replicate (readBE16 header 8) 0)
            value := some (List.replicate (readBE16 header 10) 0) }, ?_, rfl, rfl, rfl⟩
  unfold decodeEntryFromHeader
  rw [if_neg (by omega)]

/-- Witness for C10 at a concrete all-zero 12-byte header, whose value
length field is zero. -/
theorem decode_header_allocates_nonnil_slices_witness :
    12 ≤ (List.replicate 12 0 : List Byte).length ∧
    ∃ ent, decodeEntryFromHeader (List.replicate 12 0) = Except.ok ent ∧
      ent.key = some (List.replicate (readBE16 (List.replicate 12 0) 8) 0) ∧
      ent.value = some (List.replicate (readBE16 (List.replicate 12 0) 10) 0) ∧
      ent.tombstone = false :=
  ⟨by simp, decode_header_allocates_nonnil_slices (List.replicate 12 0) (by simp)⟩

theorem entryBytes_length (ent : kvEntry) :
    (DbGo.entryBytes ent).length = sliceLen ent.key + sliceLen ent.value + 12 := by
  simp [DbGo.entryBytes, storeAt_length]

theorem write_snd_ok (st : DbGo.DB) (key : List Byte) (e : kvEntry)
    (kd : DbGo.keydirEntry) : (DbGo.write st key e kd).snd = Except.ok () := by
  unfold DbGo.write DbGo.archive
  dsimp only
  split <;> rfl

/-- C1: the code of DB.Delete returns immediately whenever the key is
present in the directory, so after Put(k, v) a Delete(k) appends nothing
and changes nothing, and the following Get(k) still returns v rather than
KeyNotFound. -/
theorem dbgo_delete_present_key_noop :
    (DbGo.Delete (DbGo.Put DbGo.emptyDB [107] [118] 0).fst [107] 0).fst
        = (DbGo.Put DbGo.emptyDB [107] [118] 0).fst ∧
    (DbGo.Delete (DbGo.Put DbGo.emptyDB [107] [118] 0).fst [107] 0).snd
        = Except.ok () ∧
    DbGo.Get (DbGo.Delete (DbGo.Put DbGo.emptyDB [107] [118] 0).fst [107] 0).fst [107]
        = Except.ok [118] := by
  refine ⟨rfl, rfl, ?_⟩
  simp [DbGo.Put, DbGo.Delete, DbGo.Get, DbGo.write, DbGo.archive, DbGo.buildKeyDir,
    DbGo.newEntry, DbGo.kdGet, DbGo.kdSet, DbGo.fileGet, DbGo.fileSet, DbGo.emptyDB,
    DbGo.readAtExact, DbGo.maxKeySize, DbGo.maxValueSize, DbGo.maxDataFileSize,
    DbGo.entryBytes, sliceBytes, sliceLen, storeAt, be32, be16, List.find?]

/-- C9: ListKeys returns every key in the directory hashmap, including a
key whose descriptor is a tombstone (value_size 0); here the directory
state produced by the code itself (Delete of an absent key) lists the
tombstoned key. -/
theorem dbgo_listkeys_includes_tombstoned_key :
    ((DbGo.kdGet (DbGo.Delete DbGo.emptyDB [107] 0).fst.keyDir [107]).map
        DbGo.keydirEntry.valueSize = some 0) ∧
    DbGo.ListKeys (DbGo.Delete DbGo.emptyDB [107] 0).fst = [[107]] := by
  constructor <;>
    simp [DbGo.Delete, DbGo.write, DbGo.archive, DbGo.buildKeyDir, DbGo.newEntry,
      DbGo.kdGet, DbGo.kdSet, DbGo.fileGet, DbGo.fileSet, DbGo.emptyDB, DbGo.ListKeys,
      DbGo.maxDataFileSize, DbGo.entryBytes, sliceBytes, sliceLen, storeAt, be32, be16,
      List.find?]

theorem put_inbounds_offset (st : DbGo.DB) (key value : List Byte) (ts : Nat)
    (hk : key.length ≤ DbGo.maxKeySize) (hv : value.length ≤ DbGo.maxValueSize)
    (hoff : st.activeDataFileOff + (key.length + value.length + 12)
        < DbGo.maxDataFileSize) :
    (DbGo.Put st key value ts).snd = Except.ok () ∧
    (DbGo.Put st key value ts).fst.activeDataFileOff
        = st.activeDataFileOff + (key.length + value.length + 12) := by
  have hn : (DbGo.entryBytes (DbGo.newEntry (some key) (some value) ts)).length
      = key.length + value.length + 12 := by
    rw [entryBytes_length]
    simp [DbGo.newEntry, sliceLen, sliceBytes]
  have hmax : DbGo.maxDataFileSize = 104857600 := rfl
  unfold DbGo.Put
  rw [if_neg (by omega)]
  unfold DbGo.write
  dsimp only
  rw [hn, Nat.mod_eq_of_lt (by omega), if_neg (by omega)]
  exact ⟨rfl, rfl⟩

/-- C7 counterexample: Put accepts a value of length 2^15 + 1 = 32769 (the
maxValueSize constant next to DB.Put is 1 << 16, not 2^15), appending the
entry: the active file offset advances to 12 + 1 + 32769 = 32782. -/
theorem put_accepts_value_over_32k_cex :
    (DbGo.Put DbGo.emptyDB [107] (List.replicate 32769 7) 0).snd = Except.ok () ∧
    (DbGo.Put DbGo.emptyDB [107] (List.replicate 32769 7) 0).fst.activeDataFileOff
        = 32782 := by
  have h := put_inbounds_offset DbGo.emptyDB [107] (List.replicate 32769 7) 0
    (by rw [List.length_cons, List.length_nil]; norm_num [DbGo.maxKeySize])
    (by rw [List.length_replicate]; norm_num [DbGo.maxValueSize])
    (by rw [List.length_replicate, List.length_cons, List.length_nil]
        norm_num [DbGo.emptyDB, DbGo.maxDataFileSize])
  refine ⟨h.1, ?_⟩
  rw [h.2, List.length_replicate, List.length_cons, List.length_nil]
  norm_num [DbGo.emptyDB]

/-- C7 amended: Put rejects with KeyOrValueTooLong exactly when the key
exceeds maxKeySize = 512 or the value exceeds maxValueSize = 65536 (the
limit in db.go is 1 << 16 = 64 KiB, not 2^15), and on rejection nothing is
written: the state is returned unchanged. -/
theorem put_rejects_iff_oversize (st : DbGo.DB) (key value : List Byte) (ts : Nat) :
    ((DbGo.Put st key value ts).snd = Except.error EslError.KeyOrValueTooLong ↔
      key.length > DbGo.maxKeySize ∨ value.length > DbGo.maxValueSize) ∧
    (key.length > DbGo.maxKeySize ∨ value.length > DbGo.maxValueSize →
      (DbGo.Put st key value ts).fst = st) := by
  unfold DbGo.Put
  by_cases h : key.length > DbGo.maxKeySize ∨ value.length > DbGo.maxValueSize
  · rw [if_pos h]
    exact ⟨⟨fun _ => h, fun _ => rfl⟩, fun _ => rfl⟩
  · rw [if_neg h]
    refine ⟨⟨fun hc => absurd hc ?_, fun hc => absurd hc h⟩, fun hc => absurd hc h⟩
    rw [write_snd_ok]
    simp

/-- Witness for C7 amended: a value of length 65537 is rejected with the
state unchanged, while the boundary length 65536 itself is accepted. -/
theorem put_rejects_iff_oversize_witness :
    (DbGo.Put DbGo.emptyDB [107] (List.replicate 65537 7) 0).snd
        = Except.error EslError.KeyOrValueTooLong ∧
    (DbGo.Put DbGo.emptyDB [107] (List.replicate 65537 7) 0).fst = DbGo.emptyDB :=
  ⟨(put_rejects_iff_oversize DbGo.emptyDB [107] (List.replicate 65537 7) 0).1.mpr
      (Or.inr (by rw [List.length_replicate]; norm_num [DbGo.maxValueSize])),
   (put_rejects_iff_oversize DbGo.emptyDB [107] (List.replicate 65537 7) 0).2
      (Or.inr (by rw [List.length_replicate]; norm_num [DbGo.maxValueSize]))⟩

theorem find?_filter_ne_self (t : List (Nat × List Byte)) (id : Nat) :
    (t.filter (fun p => !(p.fst == id))).find? (fun p => p.fst == id) = none := by
  induction t with
  | nil => rfl
  | cons p t ih =>
    by_cases h : p.fst = id
    · rw [List.filter_cons_of_neg (by simp [h])]
      exact ih
    · rw [List.filter_cons_of_pos (by simp [h]), List.find?_cons_of_neg _ (by simp [h])]
      exact ih

theorem find?_filter_ne_other (t : List (Nat × List Byte)) (id id' : Nat)
    (h : id' ≠ id) :
    (t.filter (fun p => !(p.fst == id))).find? (fun p => p.fst == id')
      = t.find? (fun p => p.fst == id') := by
  induction t with
  | nil => rfl
  | cons p t ih =>
    by_cases hp : p.fst = id
    · have hq : ¬(p.fst = id') := by omega
      rw [List.filter_cons_of_neg (by simp [hp]), List.find?_cons_of_neg _ (by simp [hq])]
      exact ih
    · rw [List.filter_cons_of_pos (by simp [hp])]
      by_cases hq : p.fst = id'
      · rw [List.find?_cons_of_pos _ (by simp [hq]), List.find?_cons_of_pos _ (by simp [hq])]
      · rw [List.find?_cons_of_neg _ (by simp [hq]), List.find?_cons_of_neg _ (by simp [hq])]
        exact ih

theorem isEmpty_true_iff {α : Type} (l : List α) (h : l.isEmpty = true) : l = [] := by
  cases l with
  | nil => rfl
  | cons a t => cases h

theorem isEmpty_false_iff {α : Type} (l : List α) (h : l ≠ []) : l.isEmpty = false := by
  cases l with
  | nil => exact absurd rfl h
  | cons a t => rfl

theorem fileIdFromFilename_lt (n : FileName) (i : Nat)
    (h : fileIdFromFilename n = .ok i) : i < 65536 := by
  unfold fileIdFromFilename at h
  dsimp only at h
  split at h
  · exact absurd h (by simp)
  · split at h
    · exact absurd h (by simp)
    · split at h
      · exact absurd h (by simp)
      · cases h
        omega

theorem mapExcept_ok_forward {α β : Type} (f : α → Except EslError β) :
    ∀ (l : List α) (ys : List β), mapExcept f l = .ok ys →
      ∀ x ∈ l, ∃ y, f x = .ok y ∧ y ∈ ys := by
  intro l
  induction l with
  | nil => intro ys _ x hx; cases hx
  | cons a t ih =>
    intro ys h x hx
    unfold mapExcept at h
    cases hfa : f a with
    | error e => rw [hfa] at h; cases h
    | ok y =>
      rw [hfa] at h
      cases hft : mapExcept f t with
      | error e => rw [hft] at h; cases h
      | ok ys' =>
        rw [hft] at h
        cases h
        rcases List.mem_cons.mp hx with hx | hx
        · exact ⟨y, hx ▸ hfa, List.mem_cons_self _ _⟩
        · obtain ⟨y', hy', hmem⟩ := ih ys' hft x hx
          exact ⟨y', hy', List.mem_cons_of_mem _ hmem⟩

theorem mapExcept_ok_backward {α β : Type} (f : α → Except EslError β) :
    ∀ (l : List α) (ys : List β), mapExcept f l = .ok ys →
      ∀ y ∈ ys, ∃ x ∈ l, f x = .ok y := by
  intro l
  induction l with
  | nil =>
    intro ys h y hy
    unfold mapExcept at h
    cases h
    cases hy
  | cons a t ih =>
    intro ys h y hy
    unfold mapExcept at h
    cases hfa : f a with
    | error e => rw [hfa] at h; cases h
    | ok y' =>
      rw [hfa] at h
      cases hft : mapExcept f t with
      | error e => rw [hft] at h; cases h
      | ok ys' =>
        rw [hft] at h
        cases h
        rcases List.mem_cons.mp hy with hy | hy
        · exact ⟨a, List.mem_cons_self _ _, hy ▸ hfa⟩
        · obtain ⟨x, hx, hfx⟩ := ih ys' hft y hy
          exact ⟨x, List.mem_cons_of_mem _ hx, hfx⟩

theorem headD_insertBy_geNat (x : Nat) (s : List Nat) :
    (insertBy geNat x s).headD 0 = max x (s.headD 0) := by
  cases s with
  | nil => simp [insertBy]
  | cons z zs =>
    simp only [insertBy]
    by_cases h : z ≤ x
    · rw [if_pos (by simp [geNat, h])]
      simp
      omega
    · rw [if_neg (by simp [geNat, h])]
      simp
      omega

theorem sortBy_geNat_headD (l : List Nat) :
    (sortBy geNat l).headD 0 = l.foldr max 0 := by
  induction l with
  | nil => rfl
  | cons x t ih =>
    show (insertBy geNat x (sortBy geNat t)).headD 0 = max x (t.foldr max 0)
    rw [headD_insertBy_geNat, ih]

theorem foldr_max_ge (l : List Nat) : ∀ x ∈ l, x ≤ l.foldr max 0 := by
  induction l with
  | nil => intro x hx; cases hx
  | cons a t ih =>
    intro x hx
    rw [List.foldr_cons]
    rcases List.mem_cons.mp hx with hx | hx
    · exact hx ▸ Nat.le_max_left _ _
    · exact Nat.le_trans (ih x hx) (Nat.le_max_right _ _)

theorem foldr_max_mem (l : List Nat) (h : l ≠ []) : l.foldr max 0 ∈ l := by
  induction l with
  | nil => exact absurd rfl h
  | cons a t ih =>
    cases t with
    | nil => simp
    | cons b t' =>
      rw [List.foldr_cons]
      rcases Nat.le_total ((b :: t').foldr max 0) a with hle | hle
      · rw [Nat.max_eq_left hle]
        exact List.mem_cons_self _ _
      · rw [Nat.max_eq_right hle]
        exact List.mem_cons_of_mem _ (ih (by simp))

theorem foldr_max_lt (l : List Nat) (h : ∀ x ∈ l, x < 65536) :
    l.foldr max 0 < 65536 := by
  induction l with
  | nil => simp
  | cons a t ih =>
    have ha := h a (List.mem_cons_self _ _)
    have ht := ih (fun x hx => h x (List.mem_cons_of_mem _ hx))
    rw [List.foldr_cons]
    omega

theorem lastFileId_ok_max (names : List FileName) (m : Nat)
    (hne : names ≠ []) (h : lastFileIdFromFilenames names = .ok m) :
    (∀ n ∈ names, ∃ i, fileIdFromFilename n = .ok i ∧ i ≤ m) ∧
    (∃ n ∈ names, fileIdFromFilename n = .ok m) := by
  match names with
  | [] => exact absurd rfl hne
  | [f] =>
    refine ⟨fun n hn => ?_, f, List.mem_singleton_self f, h⟩
    rw [List.mem_singleton] at hn
    exact ⟨m, hn ▸ h, Nat.le_refl m⟩
  | f :: g :: t =>
    unfold lastFileIdFromFilenames at h
    cases hmap : mapExcept fileIdFromFilename (f :: g :: t) with
    | error e => rw [hmap] at h; cases h
    | ok ids =>
      rw [hmap] at h
      cases h
      have hlt : ∀ x ∈ ids, x < 65536 := by
        intro x hx
        obtain ⟨n, _, hfn⟩ := mapExcept_ok_backward _ _ _ hmap x hx
        exact fileIdFromFilename_lt n x hfn
      have hm : (sortBy geNat ids).headD 0 % 65536 = ids.foldr max 0 := by
        rw [sortBy_geNat_headD]
        exact Nat.mod_eq_of_lt (foldr_max_lt ids hlt)
      rw [hm]
      have hne' : ids ≠ [] := by
        intro hnil
        rw [hnil] at hmap
        obtain ⟨y, hy1, hy2⟩ := mapExcept_ok_forward _ _ _ hmap f (List.mem_cons_self _ _)
        exact absurd hy2 (List.not_mem_nil y)
      constructor
      · intro n hn
        obtain ⟨i, hi, hmem⟩ := mapExcept_ok_forward _ _ _ hmap n hn
        exact ⟨i, hi, foldr_max_ge ids i hmem⟩
      · obtain ⟨n, hn, hfn⟩ := mapExcept_ok_backward _ _ _ hmap
          (ids.foldr max 0) (foldr_max_mem ids hne')
        exact ⟨n, hn, hfn⟩

theorem fileGet_fileSet_self (files : List (Nat × List Byte)) (id : Nat) (c : List Byte) :
    DbGo.fileGet (DbGo.fileSet files id c) id = c := by
  unfold DbGo.fileGet DbGo.fileSet
  rw [List.find?_append, find?_filter_ne_self, List.find?_cons_of_pos _ (by simp)]
  rfl

theorem fileGet_fileSet_ne (files : List (Nat × List Byte)) (id id' : Nat)
    (c : List Byte) (h : id' ≠ id) :
    DbGo.fileGet (DbGo.fileSet files id c) id' = DbGo.fileGet files id' := by
  unfold DbGo.fileGet DbGo.fileSet
  rw [List.find?_append, find?_filter_ne_other files id id' h,
    List.find?_cons_of_neg _ (by simp [Ne.symm h])]
  simp

/-- C8: a write appends the encoded entry's bytes to the active data file
and advances the offset by exactly that many bytes; when the new offset
reaches maxDataFileSize the store rotates: the active file id is
incremented by one and the current length of the file at the new id
becomes the new offset. -/
theorem write_offset_advance_and_rotation (st : DbGo.DB) (key : List Byte)
    (e : kvEntry) (kd : DbGo.keydirEntry)
    (h1 : st.activeDataFileOff + (DbGo.entryBytes e).length < 4294967296)
    (h2 : st.activeFileId + 1 < 65536)
    (h3 : (DbGo.fileGet st.dataFiles (st.activeFileId + 1)).length < 4294967296) :
    (DbGo.write st key e kd).snd = Except.ok () ∧
    DbGo.fileGet (DbGo.write st key e kd).fst.dataFiles st.activeFileId
        = DbGo.fileGet st.dataFiles st.activeFileId ++ DbGo.entryBytes e ∧
    (st.activeDataFileOff + (DbGo.entryBytes e).length < DbGo.maxDataFileSize →
      (DbGo.write st key e kd).fst.activeFileId = st.activeFileId ∧
      (DbGo.write st key e kd).fst.activeDataFileOff
          = st.activeDataFileOff + (DbGo.entryBytes e).length) ∧
    (DbGo.maxDataFileSize ≤ st.activeDataFileOff + (DbGo.entryBytes e).length →
      (DbGo.write st key e kd).fst.activeFileId = st.activeFileId + 1 ∧
      (DbGo.write st key e kd).fst.activeDataFileOff
          = (DbGo.fileGet st.dataFiles (st.activeFileId + 1)).length) := by
  unfold DbGo.write DbGo.archive
  dsimp only
  rw [Nat.mod_eq_of_lt h1]
  by_cases hc : st.activeDataFileOff + (DbGo.entryBytes e).length ≥ DbGo.maxDataFileSize
  · rw [if_pos hc]
    refine ⟨rfl, ?_, fun hlt => absurd hlt (by omega), fun _ => ?_⟩
    · exact fileGet_fileSet_self _ _ _
    · rw [Nat.mod_eq_of_lt h2]
      refine ⟨rfl, ?_⟩
      rw [fileGet_fileSet_ne _ _ _ _ (by omega), Nat.mod_eq_of_lt h3]
  · rw [if_neg hc]
    exact ⟨rfl, fileGet_fileSet_self _ _ _, fun _ => ⟨rfl, rfl⟩,
      fun hge => absurd hge (by omega)⟩

/-- Witness for C8 at a concrete state: the offset 104857590 plus a
13-byte tombstone entry crosses the 100 MiB threshold, so the file id
advances from 1 to 2 and the offset becomes the (zero) length of the
fresh file. -/
theorem write_offset_advance_and_rotation_witness :
    (DbGo.write
        { activeFileId := 1, activeDataFileOff := 104857590, activeHintOff := 0,
          dataFiles := [], hintFiles := [], keyDir := [] }
        [107] (DbGo.newEntry (some [107]) none 0)
        (DbGo.buildKeyDir DbGo.emptyDB (DbGo.newEntry (some [107]) none 0))).snd
      = Except.ok () ∧
    (DbGo.write
        { activeFileId := 1, activeDataFileOff := 104857590, activeHintOff := 0,
          dataFiles := [], hintFiles := [], keyDir := [] }
        [107] (DbGo.newEntry (some [107]) none 0)
        (DbGo.buildKeyDir DbGo.emptyDB (DbGo.newEntry (some [107]) none 0))).fst.activeFileId
      = 2 ∧
    (DbGo.write
        { activeFileId := 1, activeDataFileOff := 104857590, activeHintOff := 0,
          dataFiles := [], hintFiles := [], keyDir := [] }
        [107] (DbGo.newEntry (some [107]) none 0)
        (DbGo.buildKeyDir DbGo.emptyDB (DbGo.newEntry (some [107]) none 0))).fst.activeDataFileOff
      = 0 := by
  have hlen : (DbGo.entryBytes (DbGo.newEntry (some [107]) none 0)).length = 13 := by
    rw [entryBytes_length]
    simp [DbGo.newEntry, sliceLen, sliceBytes]
  have h := write_offset_advance_and_rotation
    { activeFileId := 1, activeDataFileOff := 104857590, activeHintOff := 0,
      dataFiles := [], hintFiles := [], keyDir := [] }
    [107] (DbGo.newEntry (some [107]) none 0)
    (DbGo.buildKeyDir DbGo.emptyDB (DbGo.newEntry (some [107]) none 0))
    (by rw [hlen]; norm_num)
    (by norm_num)
    (by simp [DbGo.fileGet])
  have hrot := h.2.2.2 (by rw [hlen]; norm_num [DbGo.maxDataFileSize])
  refine ⟨h.1, hrot.1, ?_⟩
  rw [hrot.2]
  simp [DbGo.fileGet]

/-- C6 counterexample: with data files 0000000003.esld and 0000000004.esld
and hint files 0000000003.hint and 0000000004.hint all present (the state
after a compaction, as in the repository's Test_writeMergeFileAndHint),
takeDBPathSnap reports last data file id 5 = max hint id + 1, not the
largest existing data file id 4: the hint branch overrides the data
branch even though data files exist. -/
theorem snap_last_id_overridden_by_hints_cex :
    (takeDBPathSnap
        [(dataFilename [] 3, []), (dataFilename [] 4, []),
         (hintFilename [] 3, []), (hintFilename [] 4, [])] []).map
      dbPathSnap.lastDataFileId = Except.ok 5 ∧
    (takeDBPathSnap
        [(dataFilename [] 3, []), (dataFilename [] 4, []),
         (hintFilename [] 3, []), (hintFilename [] 4, [])] []).map
      (fun s => s.dataFiles.length) = Except.ok 2 ∧
    lastFileIdFromFilenames [dataFilename [] 3, dataFilename [] 4]
      = Except.ok 4 :=
  ⟨rfl, rfl, rfl⟩

/-- C6 amended: the path snapshot's last data file id equals the largest
data file id only when data files exist and no hint file exists; whenever
at least one hint file exists (whether or not data files also exist), it
is overwritten with the largest hint file id plus one (as a uint16). -/
theorem snap_last_id_characterization (fs : Fs) (path : FileName)
    (snap : dbPathSnap) (m : Nat)
    (h : takeDBPathSnap fs path = .ok snap) :
    (snap.hintFiles ≠ [] → lastFileIdFromFilenames snap.hintFiles = .ok m →
      ((∀ n ∈ snap.hintFiles, ∃ i, fileIdFromFilename n = .ok i ∧ i ≤ m) ∧
       (∃ n ∈ snap.hintFiles, fileIdFromFilename n = .ok m) ∧
       snap.lastDataFileId = (m + 1) % 65536)) ∧
    (snap.hintFiles = [] → snap.dataFiles ≠ [] →
      lastFileIdFromFilenames snap.dataFiles = .ok m →
      ((∀ n ∈ snap.dataFiles, ∃ i, fileIdFromFilename n = .ok i ∧ i ≤ m) ∧
       (∃ n ∈ snap.dataFiles, fileIdFromFilename n = .ok m) ∧
       snap.lastDataFileId = m)) := by
  unfold takeDBPathSnap at h
  dsimp only at h
  split at h
  · next hempty =>
    cases h
    rw [Bool.and_eq_true] at hempty
    constructor
    · intro hne _
      exact absurd (isEmpty_true_iff _ hempty.2) hne
    · intro _ hne _
      exact absurd (isEmpty_true_iff _ hempty.1) hne
  · split at h
    · cases h
    · next last1 heq =>
      cases h
      constructor
      · intro hne hm
        dsimp only at hne hm ⊢
        rw [if_neg (by rw [isEmpty_false_iff _ hne]; exact Bool.false_ne_true), hm]
        obtain ⟨h1, h2⟩ := lastFileId_ok_max _ m hne hm
        exact ⟨h1, h2, rfl⟩
      · intro hzero hne hd
        dsimp only at hzero hne hd ⊢
        rw [if_pos (by rw [hzero]; rfl)]
        rw [if_neg (by rw [isEmpty_false_iff _ hne]; exact Bool.false_ne_true)] at heq
        rw [hd] at heq
        cases heq
        obtain ⟨h1, h2⟩ := lastFileId_ok_max _ m hne hd
        exact ⟨h1, h2, rfl⟩

/-- Witness for C6 amended: a directory with the single hint file
0000000003.hint and no data file; the snapshot's last data file id is
3 + 1 = 4. -/
theorem snap_last_id_characterization_witness :
    (∀ n ∈ [hintFilename [] 3], ∃ i, fileIdFromFilename n = Except.ok i ∧ i ≤ 3) ∧
    (∃ n ∈ [hintFilename [] 3], fileIdFromFilename n = Except.ok 3) ∧
    (4 : Nat) = (3 + 1) % 65536 :=
  (snap_last_id_characterization [(hintFilename [] 3, [])] []
    { path := [], dataFiles := [], hintFiles := [hintFilename [] 3],
      lastDataFileId := 4 }
    3 rfl).1 (List.cons_ne_nil _ _) rfl

theorem mergeScanStep_stable (st : MergeState) (kv : kvEntry) (k : List Byte)
    (v : List Byte × kvEntry)
    (h : st.snd.find? (fun p => p.fst == k) = some v) :
    (mergeScanStep st kv).snd.find? (fun p => p.fst == k) = some v := by
  unfold mergeScanStep
  dsimp only
  split
  · exact h
  · split
    · exact h
    · dsimp only
      rw [List.find?_append, h]
      rfl

theorem mergeScanFile_stable (kvs : List kvEntry) :
    ∀ (st : MergeState) (k : List Byte) (v : List Byte × kvEntry),
      st.snd.find? (fun p => p.fst == k) = some v →
      (mergeScanFile st kvs).snd.find? (fun p => p.fst == k) = some v := by
  induction kvs with
  | nil => intro st k v h; exact h
  | cons kv rest ih =>
    intro st k v h
    show (mergeScanFile (mergeScanStep st kv) rest).snd.find? _ = some v
    exact ih _ _ _ (mergeScanStep_stable st kv k v h)

theorem mergeScanFile_fresh (kvs : List kvEntry) :
    ∀ (st : MergeState) (k : List Byte),
      st.fst.contains k = false →
      st.snd.find? (fun p => p.fst == k) = none →
      ((mergeScanFile st kvs).snd.find? (fun p => p.fst == k)
          = (kvs.find? (fun kv => entryKey kv == k)).map (fun kv => (k, kv)))
      ∧ (kvs.find? (fun kv => entryKey kv == k) = none →
          (mergeScanFile st kvs).fst.contains k = false ∧
          (mergeScanFile st kvs).snd.find? (fun p => p.fst == k) = none) := by
  induction kvs with
  | nil =>
    intro st k h1 h2
    exact ⟨h2, fun _ => ⟨h1, h2⟩⟩
  | cons kv rest ih =>
    intro st k h1 h2
    by_cases hkey : entryKey kv = k
    · -- the first occurrence of k: it is inserted and then stays
      have hstep : (mergeScanStep st kv).snd.find? (fun p => p.fst == k)
          = some (entryKey kv, kv) := by
        unfold mergeScanStep
        dsimp only
        rw [if_neg (by rw [hkey, h1]; exact Bool.false_ne_true)]
        rw [if_neg (by rw [hkey, h2]; simp)]
        dsimp only
        rw [List.find?_append, h2, Option.none_or]
        rw [List.find?_cons_of_pos _ (by simp [hkey])]
      constructor
      · show (mergeScanFile (mergeScanStep st kv) rest).snd.find? _ = _
        rw [mergeScanFile_stable rest _ k _ hstep]
        rw [List.find?_cons_of_pos _ (by simp [hkey]), hkey]
        rfl
      · intro hnone
        rw [List.find?_cons_of_pos _ (by simp [hkey])] at hnone
        cases hnone
    · -- an entry with a different key preserves freshness for k
      have hfresh : (mergeScanStep st kv).fst.contains k = false ∧
          (mergeScanStep st kv).snd.find? (fun p => p.fst == k) = none := by
        unfold mergeScanStep
        dsimp only
        split
        · exact ⟨h1, h2⟩
        · split
          · exact ⟨h1, h2⟩
          · dsimp only
            constructor
            · split
              · rw [List.contains_eq_any_beq, List.any_append]
                rw [List.contains_eq_any_beq] at h1
                rw [h1]
                simp only [List.any_cons, List.any_nil, Bool.or_false, Bool.false_or]
                rw [beq_eq_false_iff_ne]
                exact fun hk => hkey hk.symm
              · exact h1
            · rw [List.find?_append, h2, Option.none_or]
              rw [List.find?_cons_of_neg _ (by simp [hkey])]
              rfl
      have hrest := ih (mergeScanStep st kv) k hfresh.1 hfresh.2
      constructor
      · show (mergeScanFile (mergeScanStep st kv) rest).snd.find? _ = _
        rw [hrest.1, List.find?_cons_of_neg _ (by simp [hkey])]
      · intro hnone
        rw [List.find?_cons_of_neg _ (by simp [hkey])] at hnone
        exact hrest.2 hnone

/-- C2 counterexample: a single immutable data file holding only the
deletion marker written by Delete (key [107], value_size 0); merging with
active file id 2 succeeds and the merged output data file 0000000001.esld
still contains that key's record (value_size field 0, key bytes [107]),
so the tombstoned key is not omitted from the merged output. -/
theorem merge_keeps_tombstoned_key_cex :
    (mergeFiles [(dataFilename [] 1, (newEntry (some [107]) none 0).bytes)] [] 2
        (fun off => decide (100 ≤ off)) none).fst = none ∧
    lookupFs (mergeFiles [(dataFilename [] 1, (newEntry (some [107]) none 0).bytes)] [] 2
        (fun off => decide (100 ≤ off)) none).snd (dataFilename [] 1)
      = some ((newEntry (some [107]) none 0).bytes) ∧
    readBE16 ((newEntry (some [107]) none 0).bytes) 10 = 0 ∧
    (((newEntry (some [107]) none 0).bytes).drop 12).take 1 = [107] :=
  ⟨rfl, rfl, rfl, rfl⟩

/-- C2 amended: compaction never omits a key present in the processed
files: the scan records tombstone-classified entries in the tombstone set
but also inserts them into the alive map (and entries decoded from data
files are never classified as tombstones, see C10), so a key appears in
the alive map written to the merged output exactly when it occurs in some
processed entry. -/
theorem merge_alive_contains_every_key (kvs : List kvEntry) (k : List Byte) :
    ((mergeScanFile ([], []) kvs).snd.find? (fun p => p.fst == k)).isSome = true
      ↔ ∃ kv ∈ kvs, entryKey kv = k := by
  have h := (mergeScanFile_fresh kvs ([], []) k rfl rfl).1
  rw [h]
  constructor
  · intro hs
    cases hfind : List.find? (fun kv => entryKey kv == k) kvs with
    | none => rw [hfind] at hs; cases hs
    | some kv =>
      exact ⟨kv, List.mem_of_find?_eq_some hfind, by simpa using List.find?_some hfind⟩
  · rintro ⟨kv, hmem, hpred⟩
    cases hfind : List.find? (fun kv => entryKey kv == k) kvs with
    | some kv' => rfl
    | none =>
      have hno := List.find?_eq_none.mp hfind kv hmem
      simp [hpred] at hno

theorem mergeScanFiles_stable (files : List (Nat × List kvEntry)) :
    ∀ (st : MergeState) (k : List Byte) (v : List Byte × kvEntry),
      st.snd.find? (fun p => p.fst == k) = some v →
      (files.foldl (fun st p => mergeScanFile st p.snd) st).snd.find?
          (fun p => p.fst == k) = some v := by
  induction files with
  | nil => intro st k v h; exact h
  | cons f rest ih =>
    intro st k v h
    exact ih _ _ _ (mergeScanFile_stable _ _ _ _ h)

theorem merge_newest_aux (files : List (Nat × List kvEntry)) :
    ∀ (st : MergeState) (k : List Byte) (i : Nat) (es : List kvEntry),
      st.fst.contains k = false →
      st.snd.find? (fun p => p.fst == k) = none →
      (files.map Prod.fst).Pairwise (fun a b => b < a) →
      (i, es) ∈ files →
      (es.find? (fun kv => entryKey kv == k)).isSome = true →
      (∀ j es', (j, es') ∈ files →
        (es'.find? (fun kv => entryKey kv == k)).isSome = true → j ≤ i) →
      (files.foldl (fun st p => mergeScanFile st p.snd) st).snd.find?
          (fun p => p.fst == k)
        = (es.find? (fun kv => entryKey kv == k)).map (fun kv => (k, kv)) := by
  induction files with
  | nil =>
    intro st k i es _ _ _ hmem _ _
    cases hmem
  | cons f rest ih =>
    intro st k i es h1 h2 hsorted hmem hk hmax
    obtain ⟨j, es'⟩ := f
    rw [List.map_cons] at hsorted
    have hsorted' := List.pairwise_cons.mp hsorted
    by_cases hj : (es'.find? (fun kv => entryKey kv == k)).isSome = true
    · have hji : j ≤ i := hmax j es' (List.mem_cons_self _ _) hj
      have hhead : (i, es) = (j, es') := by
        rcases List.mem_cons.mp hmem with h | h
        · exact h
        · have hgt : i < j := hsorted'.1 i (List.mem_map_of_mem Prod.fst h)
          omega
      injection hhead with hij hes
      subst hij
      subst hes
      cases hfind : es.find? (fun kv => entryKey kv == k) with
      | none => rw [hfind] at hk; cases hk
      | some kv0 =>
        have hfile := (mergeScanFile_fresh es st k h1 h2).1
        rw [hfind] at hfile
        have hstable := mergeScanFiles_stable rest (mergeScanFile st es) k (k, kv0) hfile
        show (rest.foldl (fun st p => mergeScanFile st p.snd)
            (mergeScanFile st es)).snd.find? (fun p => p.fst == k) = _
        rw [hstable]
        rfl
    · have hjnone : es'.find? (fun kv => entryKey kv == k) = none := by
        cases hf : es'.find? (fun kv => entryKey kv == k) with
        | none => rfl
        | some kv' => rw [hf] at hj; exact absurd rfl hj
      have hne : (i, es) ≠ (j, es') := by
        intro he
        injection he with hij hes
        rw [hes, hjnone] at hk
        cases hk
      have hmem' : (i, es) ∈ rest := by
        rcases List.mem_cons.mp hmem with h | h
        · exact absurd h hne
        · exact h
      have hfresh := (mergeScanFile_fresh es' st k h1 h2).2 hjnone
      show (rest.foldl (fun st p => mergeScanFile st p.snd)
          (mergeScanFile st es')).snd.find? (fun p => p.fst == k) = _
      exact ih (mergeScanFile st es') k i es hfresh.1 hfresh.2 hsorted'.2 hmem' hk
        (fun j' es'' hm hs => hmax j' es'' (List.mem_cons_of_mem _ hm) hs)

/-- C4: when the processed (file id, entries) pairs are sorted with
strictly descending ids (as mergeFiles sorts them) and a key occurs in
the file with the largest id among those containing it, the merged alive
map binds that key to the first occurrence inside that newest file:
occurrences in older files are skipped once a newer version is selected. -/
theorem merge_newest_occurrence_wins (files : List (Nat × List kvEntry))
    (k : List Byte) (i : Nat) (es : List kvEntry)
    (hsorted : (files.map Prod.fst).Pairwise (fun a b => b < a))
    (hmem : (i, es) ∈ files)
    (hk : (es.find? (fun kv => entryKey kv == k)).isSome = true)
    (hmax : ∀ j es', (j, es') ∈ files →
      (es'.find? (fun kv => entryKey kv == k)).isSome = true → j ≤ i) :
    (mergeScanFiles files).snd.find? (fun p => p.fst == k)
      = (es.find? (fun kv => entryKey kv == k)).map (fun kv => (k, kv)) :=
  merge_newest_aux files ([], []) k i es rfl rfl hsorted hmem hk hmax

/-- Witness for C4: the key [107] appears in file 2 (value [50]) and in
the older file 1 (value [49]); the merged alive map keeps the occurrence
from file 2. -/
theorem merge_newest_occurrence_wins_witness :
    (mergeScanFiles
        [(2, [newEntry (some [107]) (some [50]) 0]),
         (1, [newEntry (some [107]) (some [49]) 0])]).snd.find?
      (fun p => p.fst == [107])
      = some ([107], newEntry (some [107]) (some [50]) 0) := by
  have h := merge_newest_occurrence_wins
    [(2, [newEntry (some [107]) (some [50]) 0]),
     (1, [newEntry (some [107]) (some [49]) 0])]
    [107] 2 [newEntry (some [107]) (some [50]) 0]
    (by simp)
    (List.mem_cons_self _ _)
    (by rfl)
    (by
      intro j es' hm _
      rcases List.mem_cons.mp hm with h | h
      · injection h with h1 _
        omega
      · rcases List.mem_cons.mp h with h2 | h2
        · injection h2 with h1 _
          omega
        · cases h2)
  rw [h]
  rfl

theorem find?_filter_beq_self {α β : Type} [BEq α] (t : List (α × β)) (k : α) :
    (t.filter (fun p => !(p.fst == k))).find? (fun p => p.fst == k) = none := by
  induction t with
  | nil => rfl
  | cons p t ih =>
    by_cases h : (p.fst == k) = true
    · rw [List.filter_cons_of_neg (by simp [h])]
      exact ih
    · rw [Bool.not_eq_true] at h
      rw [List.filter_cons_of_pos (by simp [h]), List.find?_cons, h]
      exact ih

theorem find?_filter_beq_other {α β : Type} [BEq α] [LawfulBEq α]
    (t : List (α × β)) (k k' : α) (h : k' ≠ k) :
    (t.filter (fun p => !(p.fst == k))).find? (fun p => p.fst == k')
      = t.find? (fun p => p.fst == k') := by
  induction t with
  | nil => rfl
  | cons p t ih =>
    by_cases hp : (p.fst == k) = true
    · have hpk : p.fst = k := eq_of_beq hp
      have hq : (p.fst == k') = false := by
        rw [hpk, beq_eq_false_iff_ne]
        exact fun hh => h hh.symm
      rw [List.filter_cons_of_neg (by simp [hp]), List.find?_cons, hq]
      exact ih
    · rw [Bool.not_eq_true] at hp
      rw [List.filter_cons_of_pos (by simp [hp])]
      by_cases hq : (p.fst == k') = true
      · rw [List.find?_cons, hq, List.find?_cons, hq]
      · rw [Bool.not_eq_true] at hq
        rw [List.find?_cons, hq, List.find?_cons, hq]
        exact ih

theorem lookupFs_writeFs_self (fs : Fs) (n : FileName) (c : List Byte) :
    lookupFs (writeFs fs n c) n = some c := by
  unfold lookupFs writeFs removeFs
  rw [List.find?_append, find?_filter_beq_self, Option.none_or,
    List.find?_cons_of_pos _ (by simp)]
  rfl

theorem lookupFs_writeFs_ne (fs : Fs) (n : FileName) (c : List Byte)
    (n' : FileName) (h : n' ≠ n) :
    lookupFs (writeFs fs n c) n' = lookupFs fs n' := by
  unfold lookupFs writeFs removeFs
  rw [List.find?_append, find?_filter_beq_other _ _ _ h,
    List.find?_cons_of_neg _ (by simp [Ne.symm h])]
  simp

theorem lookupFs_removeFs (fs : Fs) (n n' : FileName) :
    lookupFs (removeFs fs n) n' = if n' = n then none else lookupFs fs n' := by
  unfold lookupFs removeFs
  split
  · next h =>
    rw [h, find?_filter_beq_self]
    rfl
  · next h =>
    rw [find?_filter_beq_other _ _ _ h]

theorem renameFs_ok (fs : Fs) (old new : FileName) (c : List Byte)
    (h : lookupFs fs old = some c) :
    renameFs fs old new = .ok (writeFs (removeFs fs old) new c) := by
  unfold renameFs
  rw [h]

theorem getLast?_append_tail (l tail : FileName) (a : Nat)
    (h : tail.getLast? = some a) : (l ++ tail).getLast? = some a := by
  cases tail with
  | nil => cases h
  | cons x xs =>
    rw [List.getLast?_append_of_ne_nil l (by simp)]
    exact h

theorem dataFilename_getLast (path : FileName) (i : Nat) :
    (dataFilename path i).getLast? = some 100 := by
  unfold dataFilename joinPath
  split
  · exact getLast?_append_tail _ _ _ rfl
  · rw [List.append_assoc]
    exact getLast?_append_tail _ _ _
      (getLast?_append_tail _ _ _ (getLast?_append_tail _ _ _ rfl))

theorem hintFilename_getLast (path : FileName) (i : Nat) :
    (hintFilename path i).getLast? = some 116 := by
  unfold hintFilename joinPath
  split
  · exact getLast?_append_tail _ _ _ rfl
  · rw [List.append_assoc]
    exact getLast?_append_tail _ _ _
      (getLast?_append_tail _ _ _ (getLast?_append_tail _ _ _ rfl))

theorem bak_getLast (b : FileName) : (b ++ dotBak).getLast? = some 107 :=
  getLast?_append_tail _ _ _ rfl

theorem ne_of_getLast (n1 n2 : FileName) (a b : Nat)
    (h1 : n1.getLast? = some a) (h2 : n2.getLast? = some b) (hab : a ≠ b) :
    n1 ≠ n2 := by
  intro he
  rw [he, h2] at h1
  cases h1
  exact hab rfl

theorem dataFilename_ne_bak (path : FileName) (i : Nat) (b : FileName) :
    dataFilename path i ≠ b ++ dotBak :=
  ne_of_getLast _ _ _ _ (dataFilename_getLast path i) (bak_getLast b) (by omega)

theorem hintFilename_ne_bak (path : FileName) (i : Nat) (b : FileName) :
    hintFilename path i ≠ b ++ dotBak :=
  ne_of_getLast _ _ _ _ (hintFilename_getLast path i) (bak_getLast b) (by omega)

theorem hintFilename_ne_dataFilename (path path' : FileName) (i j : Nat) :
    hintFilename path i ≠ dataFilename path' j :=
  ne_of_getLast _ _ _ _ (hintFilename_getLast path i) (dataFilename_getLast path' j)
    (by omega)

theorem bak_inj (b b' : FileName) (h : b ++ dotBak = b' ++ dotBak) : b = b' :=
  List.append_cancel_right h

theorem readDataFile_ok_lookup (fs : Fs) (name : FileName) (id : Nat)
    (r : List kvEntry × List (List Byte × keydirMemEntry))
    (h : readDataFile fs name id = .ok r) : ∃ c, lookupFs fs name = some c := by
  unfold readDataFile at h
  cases hc : lookupFs fs name with
  | none => rw [hc] at h; cases h
  | some c => exact ⟨c, rfl⟩

theorem mergeLoop_ok (path : FileName) :
    ∀ (ids : List Nat) (fs : Fs) (st0 : MergeState) (bk : List FileName)
      (fs1 : Fs) (st1 : MergeState) (backups : List FileName),
      mergeLoop path ids fs st0 bk = (none, fs1, st1, backups) →
      (ids.map (dataFilename path)).Nodup →
      (∀ id ∈ ids, lookupFs fs (dataFilename path id ++ dotBak) = none) →
      backups = bk ++ ids.map (dataFilename path) ∧
      (∀ id ∈ ids,
        lookupFs fs1 (dataFilename path id) = none ∧
        lookupFs fs1 (dataFilename path id ++ dotBak)
          = lookupFs fs (dataFilename path id) ∧
        ∃ c, lookupFs fs (dataFilename path id) = some c) ∧
      (∀ n, (∀ id ∈ ids, n ≠ dataFilename path id ∧ n ≠ dataFilename path id ++ dotBak) →
        lookupFs fs1 n = lookupFs fs n) := by
  intro ids
  induction ids with
  | nil =>
    intro fs st0 bk fs1 st1 backups h _ _
    rw [mergeLoop] at h
    simp only [Prod.mk.injEq] at h
    obtain ⟨-, hfs, -, hbk⟩ := h
    subst hfs
    subst hbk
    refine ⟨by simp, fun id hid => absurd hid (List.not_mem_nil id), fun n _ => rfl⟩
  | cons id rest ih =>
    intro fs st0 bk fs1 st1 backups h hnodup hfresh
    rw [mergeLoop] at h
    cases hread : readDataFile fs (dataFilename path id) id with
    | error e =>
      rw [hread] at h
      simp only [Prod.mk.injEq] at h
      exact absurd h.1 (by simp)
    | ok r =>
      obtain ⟨kvs, kds⟩ := r
      rw [hread] at h
      obtain ⟨c, hc⟩ := readDataFile_ok_lookup fs (dataFilename path id) id _ hread
      have hbkf : backupFile fs (dataFilename path id)
          = .ok (writeFs (removeFs fs (dataFilename path id))
              (dataFilename path id ++ dotBak) c) := by
        unfold backupFile
        exact renameFs_ok _ _ _ _ hc
      rw [hbkf] at h
      rw [List.map_cons] at hnodup
      have hhead := (List.nodup_cons.mp hnodup).1
      have htail := (List.nodup_cons.mp hnodup).2
      have hfs'_name : lookupFs (writeFs (removeFs fs (dataFilename path id))
          (dataFilename path id ++ dotBak) c) (dataFilename path id) = none := by
        rw [lookupFs_writeFs_ne _ _ _ _ (dataFilename_ne_bak path id _),
          lookupFs_removeFs, if_pos rfl]
      have hfs'_bak : lookupFs (writeFs (removeFs fs (dataFilename path id))
          (dataFilename path id ++ dotBak) c) (dataFilename path id ++ dotBak)
          = some c := lookupFs_writeFs_self _ _ _
      have hfs'_other : ∀ m, m ≠ dataFilename path id →
          m ≠ dataFilename path id ++ dotBak →
          lookupFs (writeFs (removeFs fs (dataFilename path id))
            (dataFilename path id ++ dotBak) c) m = lookupFs fs m := by
        intro m h1 h2
        rw [lookupFs_writeFs_ne _ _ _ _ h2, lookupFs_removeFs, if_neg h1]
      have hfresh' : ∀ id' ∈ rest,
          lookupFs (writeFs (removeFs fs (dataFilename path id))
            (dataFilename path id ++ dotBak) c)
            (dataFilename path id' ++ dotBak) = none := by
        intro id' hid'
        have hne1 : dataFilename path id' ++ dotBak ≠ dataFilename path id :=
          Ne.symm (dataFilename_ne_bak path id _)
        have hne2 : dataFilename path id' ++ dotBak ≠ dataFilename path id ++ dotBak := by
          intro he
          have heq : dataFilename path id' = dataFilename path id := bak_inj _ _ he
          exact hhead (heq ▸ List.mem_map_of_mem (dataFilename path) hid')
        rw [hfs'_other _ hne1 hne2]
        exact hfresh id' (List.mem_cons_of_mem _ hid')
      obtain ⟨hbks, hids, huntouched⟩ :=
        ih _ (mergeScanFile st0 kvs) (bk ++ [dataFilename path id])
          fs1 st1 backups h htail hfresh'
      have hname_not_rest : ∀ id' ∈ rest, dataFilename path id ≠ dataFilename path id' := by
        intro id' hid' he
        exact hhead (he ▸ List.mem_map_of_mem (dataFilename path) hid')
      refine ⟨by simpa [List.append_assoc] using hbks, ?_, ?_⟩
      · intro id0 hid0
        rcases List.mem_cons.mp hid0 with h0 | h0
        · subst h0
          refine ⟨?_, ?_, c, hc⟩
          · rw [huntouched _ (fun id' hid' =>
              ⟨hname_not_rest id' hid', dataFilename_ne_bak path id0 _⟩)]
            exact hfs'_name
          · rw [huntouched _ (fun id' hid' =>
              ⟨Ne.symm (dataFilename_ne_bak path id' _), fun he =>
                hhead (by
                  rw [bak_inj _ _ he]
                  exact List.mem_map_of_mem (dataFilename path) hid')⟩)]
            rw [hfs'_bak, hc]
        · obtain ⟨ha, hb, c', hc'⟩ := hids id0 h0
          have hda : dataFilename path id0 ≠ dataFilename path id := by
            intro he
            exact hhead (he ▸ List.mem_map_of_mem (dataFilename path) h0)
          have hdb : dataFilename path id0 ≠ dataFilename path id ++ dotBak :=
            dataFilename_ne_bak path id0 _
          refine ⟨ha, ?_, c', ?_⟩
          · rw [hb, hfs'_other _ hda hdb]
          · rw [← hfs'_other _ hda hdb]
            exact hc'
      · intro n hn
        have hn0 := hn id (List.mem_cons_self _ _)
        rw [huntouched n (fun id' hid' => hn id' (List.mem_cons_of_mem _ hid'))]
        exact hfs'_other n hn0.1 hn0.2

theorem writeFileAt_untouched (fs : Fs) (m : FileName) (pos : Nat)
    (src : List Byte) (n : FileName) (h : n ≠ m) :
    lookupFs (writeFileAt fs m pos src) n = lookupFs fs n := by
  unfold writeFileAt
  exact lookupFs_writeFs_ne _ _ _ _ h

theorem wmOpen_untouched (fs : Fs) (path : FileName) (fileId : Nat)
    (n : FileName)
    (h : ∀ j, n ≠ dataFilename path j ∧ n ≠ hintFilename path j) :
    lookupFs (wmOpen fs path fileId) n = lookupFs fs n := by
  unfold wmOpen
  dsimp only
  split
  · split
    · rfl
    · exact lookupFs_writeFs_ne _ _ _ _ (h fileId).2
  · split
    · exact lookupFs_writeFs_ne _ _ _ _ (h fileId).1
    · rw [lookupFs_writeFs_ne _ _ _ _ (h fileId).2]
      exact lookupFs_writeFs_ne _ _ _ _ (h fileId).1

theorem wmLoop_untouched (path : FileName) (ovs : Nat → Bool)
    (failAt : Option Nat) (n : FileName)
    (hcond : ∀ j, n ≠ dataFilename path j ∧ n ≠ hintFilename path j) :
    ∀ (ents : List (List Byte × kvEntry)) (fs : Fs)
      (fileId dp hp eo cnt : Nat) (fids : List Nat),
      lookupFs (wmLoop path ovs failAt ents fs fileId dp hp eo cnt fids).2.1 n
        = lookupFs fs n := by
  intro ents
  induction ents with
  | nil => intro fs fileId dp hp eo cnt fids; rfl
  | cons p rest ih =>
    obtain ⟨k, entry⟩ := p
    intro fs fileId dp hp eo cnt fids
    rw [wmLoop]
    cases hfa : failAt == some cnt with
    | true => rw [if_pos rfl]
    | false =>
      rw [if_neg Bool.false_ne_true]
      cases hfb : failAt == some (cnt + 1) with
      | true =>
        rw [if_pos rfl]
        exact writeFileAt_untouched _ _ _ _ _ (hcond fileId).1
      | false =>
        rw [if_neg Bool.false_ne_true]
        cases hov : ovs (eo + 12 + entry.keySize) with
        | true =>
          rw [if_pos rfl, ih, wmOpen_untouched _ _ _ _ hcond,
            writeFileAt_untouched _ _ _ _ _ (hcond fileId).2,
            writeFileAt_untouched _ _ _ _ _ (hcond fileId).1]
        | false =>
          rw [if_neg Bool.false_ne_true, ih,
            writeFileAt_untouched _ _ _ _ _ (hcond fileId).2,
            writeFileAt_untouched _ _ _ _ _ (hcond fileId).1]

theorem wmCleanup_none (path : FileName) :
    ∀ (l : List Nat) (fs : Fs) (n : FileName), lookupFs fs n = none →
      lookupFs (wmCleanup fs path l) n = none := by
  intro l
  induction l with
  | nil => intro fs n h; exact h
  | cons i rest ih =>
    intro fs n h
    simp only [wmCleanup, List.foldl_cons] at ih ⊢
    apply ih
    rw [lookupFs_removeFs]
    split
    · rfl
    · rw [lookupFs_removeFs]
      split
      · rfl
      · exact h

theorem wmCleanup_hint_none (path : FileName) :
    ∀ (l : List Nat) (fs : Fs) (j : Nat), j ∈ l →
      lookupFs (wmCleanup fs path l) (hintFilename path j) = none := by
  intro l
  induction l with
  | nil => intro fs j hj; exact absurd hj (List.not_mem_nil j)
  | cons i rest ih =>
    intro fs j hj
    simp only [wmCleanup, List.foldl_cons] at ih ⊢
    rcases List.mem_cons.mp hj with h0 | h0
    · subst h0
      have hnone : lookupFs
          (removeFs (removeFs fs (dataFilename path j)) (hintFilename path j))
          (hintFilename path j) = none := by
        rw [lookupFs_removeFs, if_pos rfl]
      have := wmCleanup_none path rest
          (removeFs (removeFs fs (dataFilename path j)) (hintFilename path j))
          (hintFilename path j) hnone
      simpa [wmCleanup] using this
    · exact ih _ j h0

theorem wmCleanup_untouched (path : FileName) (n : FileName)
    (hcond : ∀ j, n ≠ dataFilename path j ∧ n ≠ hintFilename path j) :
    ∀ (l : List Nat) (fs : Fs),
      lookupFs (wmCleanup fs path l) n = lookupFs fs n := by
  intro l
  induction l with
  | nil => intro fs; rfl
  | cons i rest ih =>
    intro fs
    simp only [wmCleanup, List.foldl_cons] at ih ⊢
    rw [ih, lookupFs_removeFs, if_neg (hcond i).2, lookupFs_removeFs,
      if_neg (hcond i).1]

theorem cleanAll_none (bs : List FileName) :
    ∀ (fs : Fs) (n : FileName), lookupFs fs n = none →
      lookupFs (cleanAll fs bs) n = none := by
  induction bs with
  | nil => intro fs n h; exact h
  | cons b rest ih =>
    intro fs n h
    simp only [cleanAll, List.foldl_cons] at ih ⊢
    apply ih
    rw [lookupFs_removeFs]
    split
    · rfl
    · exact h

theorem cleanAll_mem (bs : List FileName) :
    ∀ (fs : Fs) (b : FileName), b ∈ bs →
      lookupFs (cleanAll fs bs) (b ++ dotBak) = none := by
  induction bs with
  | nil => intro fs b hb; exact absurd hb (List.not_mem_nil b)
  | cons b0 rest ih =>
    intro fs b hb
    simp only [cleanAll, List.foldl_cons] at ih ⊢
    rcases List.mem_cons.mp hb with h0 | h0
    · subst h0
      have hnone : lookupFs (removeFs fs (b ++ dotBak)) (b ++ dotBak) = none := by
        rw [lookupFs_removeFs, if_pos rfl]
      have := cleanAll_none rest (removeFs fs (b ++ dotBak)) (b ++ dotBak) hnone
      simpa [cleanAll] using this
    · exact ih _ b h0

theorem restoreAll_lookup :
    ∀ (bs : List FileName) (f : Fs),
      bs.Nodup →
      (∀ b1 ∈ bs, ∀ b2 ∈ bs, b1 ≠ b2 ++ dotBak) →
      (∀ b ∈ bs, ∃ c, lookupFs f (b ++ dotBak) = some c) →
      (∀ b ∈ bs, lookupFs (restoreAll f bs) b = lookupFs f (b ++ dotBak)) ∧
      (∀ n, (∀ b ∈ bs, n ≠ b ∧ n ≠ b ++ dotBak) →
        lookupFs (restoreAll f bs) n = lookupFs f n) := by
  intro bs
  induction bs with
  | nil =>
    intro f _ _ _
    exact ⟨fun b hb => absurd hb (List.not_mem_nil b), fun n _ => rfl⟩
  | cons b rest ih =>
    intro f hnd hne hpres
    obtain ⟨c, hc⟩ := hpres b (List.mem_cons_self _ _)
    have hbnotin := (List.nodup_cons.mp hnd).1
    have hndrest := (List.nodup_cons.mp hnd).2
    have hstep : restoreAll f (b :: rest)
        = restoreAll (writeFs (removeFs f (b ++ dotBak)) b c) rest := by
      simp only [restoreAll, List.foldl_cons]
      rw [renameFs_ok _ _ _ _ hc]
    have hf'_other : ∀ m, m ≠ b →
        lookupFs (writeFs (removeFs f (b ++ dotBak)) b c) m
          = if m = b ++ dotBak then none else lookupFs f m := by
      intro m hm
      rw [lookupFs_writeFs_ne _ _ _ _ hm, lookupFs_removeFs]
    have hne' : ∀ b1 ∈ rest, ∀ b2 ∈ rest, b1 ≠ b2 ++ dotBak :=
      fun b1 h1 b2 h2 =>
        hne b1 (List.mem_cons_of_mem _ h1) b2 (List.mem_cons_of_mem _ h2)
    have hpres' : ∀ b' ∈ rest, ∃ c',
        lookupFs (writeFs (removeFs f (b ++ dotBak)) b c) (b' ++ dotBak)
          = some c' := by
      intro b' hb'
      have h1 : b' ++ dotBak ≠ b :=
        Ne.symm (hne b (List.mem_cons_self _ _) b' (List.mem_cons_of_mem _ hb'))
      have h2 : b' ++ dotBak ≠ b ++ dotBak := by
        intro he
        have heq : b' = b := bak_inj _ _ he
        exact hbnotin (heq ▸ hb')
      rw [hf'_other _ h1, if_neg h2]
      exact hpres b' (List.mem_cons_of_mem _ hb')
    obtain ⟨ihA, ihB⟩ := ih (writeFs (removeFs f (b ++ dotBak)) b c)
      hndrest hne' hpres'
    constructor
    · intro b0 hb0
      rcases List.mem_cons.mp hb0 with h0 | h0
      · subst h0
        rw [hstep, ihB b0 (fun b' hb' =>
          ⟨fun he => hbnotin (he ▸ hb'),
           hne b0 (List.mem_cons_self _ _) b' (List.mem_cons_of_mem _ hb')⟩),
          lookupFs_writeFs_self, hc]
      · have hb0b : b0 ≠ b := fun he => hbnotin (he ▸ h0)
        rw [hstep, ihA b0 h0, hf'_other _ (Ne.symm
          (hne b (List.mem_cons_self _ _) b0 (List.mem_cons_of_mem _ h0))),
          if_neg (by
            intro he
            have heq : b0 = b := bak_inj b0 b he
            exact hbnotin (heq ▸ h0))]
    · intro n hn
      rw [hstep, ihB n (fun b' hb' => hn b' (List.mem_cons_of_mem _ hb')),
        hf'_other _ (hn b (List.mem_cons_self _ _)).1,
        if_neg (hn b (List.mem_cons_self _ _)).2]

/-- C3 (counterexample): compaction of the store `fsC3` with the writer
failing on its first Write call returns the error, but the resulting file
system is not the pre-compaction state: the pre-existing hint file of id
1 — reused and then removed by the writer's error cleanup, and never
backed up — is gone, even though it held `[1, 2, 3]` before the merge. -/
theorem merge_failure_removes_preexisting_hint_cex :
    lookupFs fsC3 (hintFilename [] 1) = some [1, 2, 3] ∧
    (mergeFiles fsC3 [] 2 ovsC3 (some 0)).fst = some .IoFailure ∧
    lookupFs (mergeFiles fsC3 [] 2 ovsC3 (some 0)).snd (hintFilename [] 1)
      = none :=
  ⟨rfl, rfl, rfl⟩

/-- C3 (amended): when the merge writer fails, mergeFiles returns the
error with every processed original data file restored from its .bak
backup and the data/hint pairs opened by the writer removed — but the
pre-compaction state is not always recovered: the hint file of every
opened output id is absent afterwards, even if a hint file of that id
existed before compaction (hint files are never backed up).  On writer
success every .bak backup is removed. -/
theorem merge_failure_restore_characterization
    (fs : Fs) (path : FileName) (activeFileId : Nat) (ids : List Nat)
    (oversize : Nat → Bool) (failAt : Option Nat)
    (fs1 : Fs) (st : MergeState) (backups : List FileName)
    (hnodup : (ids.map (dataFilename path)).Nodup)
    (hfresh : ∀ id ∈ ids, lookupFs fs (dataFilename path id ++ dotBak) = none)
    (hscan : mergeLoop path ids fs ([], []) [] = (none, fs1, st, backups)) :
    (∀ e fs2 outIds,
      wmAux fs1 path ((activeFileId + 65535) % 65536) st.snd oversize failAt
        = (some e, fs2, outIds) →
      mergeFilesFrom fs path activeFileId ids oversize failAt
        = (some e, restoreAll fs2 backups) ∧
      (∀ id ∈ ids,
        lookupFs (restoreAll fs2 backups) (dataFilename path id)
          = lookupFs fs (dataFilename path id)) ∧
      (∀ j ∈ outIds,
        lookupFs (restoreAll fs2 backups) (hintFilename path j) = none)) ∧
    (∀ fs2 outIds,
      wmAux fs1 path ((activeFileId + 65535) % 65536) st.snd oversize failAt
        = (none, fs2, outIds) →
      mergeFilesFrom fs path activeFileId ids oversize failAt
        = (none, cleanAll fs2 backups) ∧
      (∀ id ∈ ids,
        lookupFs (cleanAll fs2 backups) (dataFilename path id ++ dotBak)
          = none)) := by
  obtain ⟨hbks, hids, huntouched⟩ :=
    mergeLoop_ok path ids fs ([], []) [] fs1 st backups hscan hnodup hfresh
  have hbks' : backups = ids.map (dataFilename path) := by simpa using hbks
  subst hbks'
  constructor
  · intro e fs2 outIds hwm
    have hwl := hwm
    unfold wmAux at hwl
    rcases hq : wmLoop path oversize failAt st.snd
        (wmOpen fs1 path ((activeFileId + 65535) % 65536))
        ((activeFileId + 65535) % 65536) 0 0 0 0
        [(activeFileId + 65535) % 65536] with ⟨err, fs2', fids⟩
    rw [hq] at hwl
    cases err with
    | none =>
      simp only [Prod.mk.injEq] at hwl
      exact absurd hwl.1 (by simp)
    | some e0 =>
      simp only [Prod.mk.injEq, Option.some.injEq] at hwl
      obtain ⟨he, hfs2, hout⟩ := hwl
      subst he
      subst hfs2
      subst hout
      have hbak_pres : ∀ id ∈ ids,
          lookupFs (wmCleanup fs2' path fids) (dataFilename path id ++ dotBak)
            = lookupFs fs (dataFilename path id) := by
        intro id hid
        have hcond : ∀ j, dataFilename path id ++ dotBak ≠ dataFilename path j ∧
            dataFilename path id ++ dotBak ≠ hintFilename path j :=
          fun j => ⟨Ne.symm (dataFilename_ne_bak path j _),
            Ne.symm (hintFilename_ne_bak path j _)⟩
        have hw := wmLoop_untouched path oversize failAt
          (dataFilename path id ++ dotBak) hcond st.snd
          (wmOpen fs1 path ((activeFileId + 65535) % 65536))
          ((activeFileId + 65535) % 65536) 0 0 0 0
          [(activeFileId + 65535) % 65536]
        rw [hq] at hw
        dsimp only at hw
        rw [wmCleanup_untouched path _ hcond fids fs2', hw,
          wmOpen_untouched _ _ _ _ hcond]
        exact (hids id hid).2.1
      have hne : ∀ b1 ∈ ids.map (dataFilename path),
          ∀ b2 ∈ ids.map (dataFilename path), b1 ≠ b2 ++ dotBak := by
        intro b1 h1 b2 h2
        obtain ⟨i1, hi1, rfl⟩ := List.mem_map.mp h1
        exact dataFilename_ne_bak path i1 _
      have hpres : ∀ b ∈ ids.map (dataFilename path), ∃ c,
          lookupFs (wmCleanup fs2' path fids) (b ++ dotBak) = some c := by
        intro b hb
        obtain ⟨id, hid, rfl⟩ := List.mem_map.mp hb
        obtain ⟨c, hc⟩ := (hids id hid).2.2
        exact ⟨c, by rw [hbak_pres id hid, hc]⟩
      obtain ⟨rA, rB⟩ := restoreAll_lookup (ids.map (dataFilename path))
        (wmCleanup fs2' path fids) hnodup hne hpres
      refine ⟨?_, ?_, ?_⟩
      · unfold mergeFilesFrom
        rw [hscan]
        dsimp only
        rw [hwm]
      · intro id hid
        rw [rA (dataFilename path id) (List.mem_map_of_mem _ hid)]
        exact hbak_pres id hid
      · intro j hj
        have hcondh : ∀ b ∈ ids.map (dataFilename path),
            hintFilename path j ≠ b ∧ hintFilename path j ≠ b ++ dotBak := by
          intro b hb
          obtain ⟨i, hi, rfl⟩ := List.mem_map.mp hb
          exact ⟨hintFilename_ne_dataFilename path path j i,
            hintFilename_ne_bak path j _⟩
        rw [rB (hintFilename path j) hcondh]
        exact wmCleanup_hint_none path fids fs2' j hj
  · intro fs2 outIds hwm
    refine ⟨?_, ?_⟩
    · unfold mergeFilesFrom
      rw [hscan]
      dsimp only
      rw [hwm]
    · intro id hid
      exact cleanAll_mem (ids.map (dataFilename path)) fs2 (dataFilename path id)
        (List.mem_map_of_mem _ hid)

/-- Witness for the amended C3 theorem: on the concrete store `fsC3`
(scanned ids `[1]`, active file 2, writer failing at its first Write) the
hypotheses hold, the merge fails with IoFailure, data file 1 is restored
to its original content, and the hint file of the opened output id 1 —
pre-existing before the merge — is absent. -/
theorem merge_failure_restore_characterization_witness :
    (([1].map (dataFilename ([] : FileName))).Nodup) ∧
    (∀ id ∈ [1], lookupFs fsC3 (dataFilename [] id ++ dotBak) = none) ∧
    (mergeFilesFrom fsC3 [] 2 [1] ovsC3 (some 0)).fst = some .IoFailure ∧
    lookupFs (mergeFilesFrom fsC3 [] 2 [1] ovsC3 (some 0)).snd
      (dataFilename [] 1) = lookupFs fsC3 (dataFilename [] 1) ∧
    lookupFs (mergeFilesFrom fsC3 [] 2 [1] ovsC3 (some 0)).snd
      (hintFilename [] 1) = none := by
  have hnodup : (([1].map (dataFilename ([] : FileName))).Nodup) := by simp
  have hfresh : ∀ id ∈ [1],
      lookupFs fsC3 (dataFilename [] id ++ dotBak) = none := by
    intro id hid
    rw [List.mem_singleton] at hid
    subst hid
    rfl
  have h := merge_failure_restore_characterization fsC3 [] 2 [1] ovsC3 (some 0)
    _ _ _ hnodup hfresh rfl
  obtain ⟨heq, hdata, hhint⟩ := h.1 .IoFailure _ _ rfl
  refine ⟨hnodup, hfresh, ?_, ?_, ?_⟩
  · rw [heq]
  · rw [heq]
    exact hdata 1 (List.mem_singleton.mpr rfl)
  · rw [heq]
    exact hhint 1 (by decide)

end Esl
